import Mathlib

/-!
UpsertExecutor (src/ee/executors/upsertexecutor.cpp).

A shallow embedding of `UpsertExecutor::p_init` and `UpsertExecutor::p_execute`.

* The storage layer (`PersistentTable`), the tuple accessors, the locality oracle and the
  output temp table live in other files; they enter as the fields of `Collaborators`.
* The two preprocessor symbols the file depends on (`DEBUG`, `NDEBUG`) are the fields of `Build`.
* `int modifiedTuples` is a 32-bit signed integer: `modifiedTuples++` is `wrapInt32 (n + 1)`.
* The engine counter `m_tuplesModified` is a 64-bit signed integer: `+=` on it is
  `wrapInt64 (m + n)`.
* The storage calls made by an execution are recorded, in order, in `ExecState.calls`.
-/

namespace Upsert

/-! ## Definitions -/

/-- Preprocessor configuration: `DEBUG` enables the block of lines 78-88, `NDEBUG` turns
every `assert` into a no-op. -/
structure Build where
  DEBUG : Bool
  NDEBUG : Bool
deriving DecidableEq, Repr

/-- Value of a C++ `int` (32-bit two's complement) holding the mathematical integer `x`. -/
def wrapInt32 (x : Int) : Int :=
  (x + 2147483648) % 4294967296 - 2147483648

/-- Value of a C++ `int64_t` (64-bit two's complement) holding the mathematical integer
`x`; the engine counter `m_tuplesModified` is an `int64_t` member of `VoltDBEngine`. -/
def wrapInt64 (x : Int) : Int :=
  (x + 9223372036854775808) % 18446744073709551616 - 9223372036854775808

/-- A `Table*` as seen by `dynamic_cast<PersistentTable*>`: a streamed table or a persistent
table with contents `t`. -/
inductive Table (Tbl : Type) where
  | streamed : Table Tbl
  | persistent (t : Tbl) : Table Tbl
deriving DecidableEq, Repr

/-- The cast `dynamic_cast<PersistentTable*>(table)`: `none` is the NULL pointer. -/
def Table.asPersistent {Tbl : Type} : Table Tbl → Option Tbl
  | .streamed => none
  | .persistent t => some t

/-- Everything `upsertexecutor.cpp` calls but does not define.  `Tbl` is the contents of a
`PersistentTable`, `Tuple` a `TableTuple`, `Val` an `NValue`, `Idx` the vector returned by
`allIndexes()`.  Storage mutators return the reported `bool` together with the table
afterwards.  `lookupTuple` returning `none` is the null tuple. -/
structure Collaborators (Tbl Tuple Val Idx : Type) where
  /-- The call `tbTuple.getNValue(column)`. -/
  getNValue : Tuple → Int → Val
  /-- The call `m_engine->isLocalSite(value)`. -/
  isLocalSite : Val → Bool
  /-- The call `persistentTarget->partitionColumn()`. -/
  partitionColumn : Tbl → Int
  /-- Whether `targetTable->primaryKeyIndex()` is not NULL. -/
  primaryKeyIndex : Tbl → Bool
  /-- The call `targetTable->lookupTuple(tbTuple)`. -/
  lookupTuple : Tbl → Tuple → Option Tuple
  /-- The call `targetTable->insertTuple(tbTuple)`. -/
  insertTuple : Tbl → Tuple → Bool × Tbl
  /-- The call `targetTable->updateTupleWithSpecificIndexes(existsTuple, tbTuple, indexes)`. -/
  updateTupleWithSpecificIndexes : Tbl → Tuple → Tuple → Idx → Bool × Tbl
  /-- The call `targetTable->allIndexes()`. -/
  allIndexes : Tbl → Idx
  /-- Whether `outputTable->insertTuple(count_tuple)` reports success, given the rows already
  in the output table and the count being written. -/
  outputAccepts : List Int → Int → Bool

/-- The plan node handed to `p_init`, reduced to what `p_init` inspects. -/
structure AbstractPlanNode (Tbl : Type) where
  /-- Whether `dynamic_cast<UpsertPlanNode*>(abstractNode)` is not NULL. -/
  isUpsertPlanNode : Bool
  /-- The pointer `getTargetTable()`, `none` for NULL. -/
  targetTable : Option (Table Tbl)
  /-- The vector `getInputTables()`: for each input table whether it is a `TempTable`. -/
  inputTables : List Bool
  /-- The flag `isMultiPartition()`. -/
  isMultiPartition : Bool

/-- The members of `UpsertExecutor` that `p_init` sets and `p_execute` reads. -/
structure UpsertExecutor where
  /-- Whether `m_inputTable` is not NULL (the cast to `TempTable*` succeeded). -/
  m_inputTable : Bool
  m_partitionColumn : Int
  m_multiPartition : Bool
deriving DecidableEq, Repr

/-- How a call of `p_init` ends. -/
inductive InitResult where
  | returned (ok : Bool) (ex : UpsertExecutor)
  | assertFailed
  | nullDeref
  | outOfBounds
deriving DecidableEq, Repr

/-- The method `UpsertExecutor::p_init` (lines 40-64). -/
def p_init {Tbl Tuple Val Idx : Type} (b : Build) (c : Collaborators Tbl Tuple Val Idx)
    (abstractNode : AbstractPlanNode Tbl) : InitResult :=
  -- 45-46: m_node = dynamic_cast<UpsertPlanNode*>(abstractNode); assert(m_node);
  if abstractNode.isUpsertPlanNode = false then
    (if b.NDEBUG = false then .assertFailed else .nullDeref)
  else
  -- 47: assert(m_node->getTargetTable());
  if abstractNode.targetTable.isNone ∧ b.NDEBUG = false then .assertFailed
  else
  -- 48: assert(m_node->getInputTables().size() == 1);
  if abstractNode.inputTables.length ≠ 1 ∧ b.NDEBUG = false then .assertFailed
  else
  -- 53-56: the cast of the target; a NULL result is only logged
  match abstractNode.targetTable with
  | none => .nullDeref  -- 55: m_node->getTargetTable()->name()
  | some target =>
    let persistentTarget := target.asPersistent
    -- 58-59: m_inputTable = dynamic_cast<TempTable*>(getInputTables()[0]); assert(m_inputTable);
    match abstractNode.inputTables with
    | [] => .outOfBounds
    | isTemp :: _ =>
      if isTemp = false ∧ b.NDEBUG = false then .assertFailed
      else
      -- 61: m_partitionColumn = persistentTarget->partitionColumn();
      match persistentTarget with
      | none => .nullDeref
      | some t =>
        -- 62-63
        .returned true
          { m_inputTable := isTemp
            m_partitionColumn := c.partitionColumn t
            m_multiPartition := abstractNode.isMultiPartition }

/-- A storage call made by `p_execute` on the target table. -/
inductive Call (Tuple Idx : Type) where
  | lookupTuple (tbTuple : Tuple)
  | insertTuple (tbTuple : Tuple)
  | updateTupleWithSpecificIndexes (existsTuple tbTuple : Tuple) (indexes : Idx)
deriving DecidableEq, Repr

/-- Whether a storage call is one of the two mutators. -/
def Call.isMutation {Tuple Idx : Type} : Call Tuple Idx → Bool
  | .lookupTuple _ => false
  | .insertTuple _ => true
  | .updateTupleWithSpecificIndexes _ _ _ => true

/-- How a call of `p_execute` ends: a returned `bool`, the `ConstraintFailureException` of
line 112 (with the table pointer and the tuple it carries), a failed `assert`, or a
dereference of a NULL pointer. -/
inductive Exit (Tbl Tuple : Type) where
  | returned (ok : Bool)
  | constraintFailure (table : Option Tbl) (tuple : Tuple)
  | assertFailed
  | nullDeref
deriving DecidableEq, Repr

/-- What `p_execute` reads and writes outside its own locals. -/
structure ExecState (Tbl Tuple Idx : Type) where
  /-- The local `targetTable` (NULL is `none`) with the current contents of the table. -/
  targetTable : Option Tbl
  /-- The local `int modifiedTuples`. -/
  modifiedTuples : Int
  /-- The rows of the one-column output table. -/
  outputTable : List Int
  /-- The engine counter `m_engine->m_tuplesModified`, an `int64_t` (declared in
  VoltDBEngine.h). -/
  m_tuplesModified : Int
  /-- The storage calls made so far, oldest first. -/
  calls : List (Call Tuple Idx)
deriving DecidableEq, Repr

/-- Result of one iteration of the `while` loop: go on with the next tuple, or leave
`p_execute` at once. -/
inductive Step (Tbl Tuple Idx : Type) where
  | next (s : ExecState Tbl Tuple Idx)
  | stop (e : Exit Tbl Tuple) (s : ExecState Tbl Tuple Idx)
deriving DecidableEq, Repr

/-- The state carried by a step. -/
def Step.state {Tbl Tuple Idx : Type} : Step Tbl Tuple Idx → ExecState Tbl Tuple Idx
  | .next s => s
  | .stop _ s => s

/-- Lines 122-152 of the loop body: the primary-key check, the lookup, the insert or the
update, and the increment of `modifiedTuples`, for a tuple that got past the locality
filter. -/
def upsertTuple {Tbl Tuple Val Idx : Type} (b : Build) (c : Collaborators Tbl Tuple Val Idx)
    (tbTuple : Tuple) (s : ExecState Tbl Tuple Idx) : Step Tbl Tuple Idx :=
  match s.targetTable with
  | none => .stop .nullDeref s  -- 123: targetTable->primaryKeyIndex()
  | some t =>
    -- 123-127: the missing index is logged, then asserted
    if c.primaryKeyIndex t = false ∧ b.NDEBUG = false then .stop .assertFailed s
    else
      -- 128: TableTuple existsTuple = targetTable->lookupTuple(tbTuple);
      match c.lookupTuple t tbTuple with
      | none =>
        -- 130-138
        let r := c.insertTuple t tbTuple
        let s1 : ExecState Tbl Tuple Idx :=
          { s with
            targetTable := some r.2
            calls := s.calls ++ [.lookupTuple tbTuple, .insertTuple tbTuple] }
        if r.1 = false then .stop (.returned false) s1
        else .next { s1 with modifiedTuples := wrapInt32 (s1.modifiedTuples + 1) }
      | some existsTuple =>
        -- 139-149
        let r := c.updateTupleWithSpecificIndexes t existsTuple tbTuple (c.allIndexes t)
        let s1 : ExecState Tbl Tuple Idx :=
          { s with
            targetTable := some r.2
            calls := s.calls ++ [.lookupTuple tbTuple,
              .updateTupleWithSpecificIndexes existsTuple tbTuple (c.allIndexes t)] }
        if r.1 = false then .stop (.returned false) s1
        else .next { s1 with modifiedTuples := wrapInt32 (s1.modifiedTuples + 1) }

/-- The body of the `while` loop of `p_execute` (lines 98-152) for the tuple `tbTuple`. -/
def loopBody {Tbl Tuple Val Idx : Type} (b : Build) (c : Collaborators Tbl Tuple Val Idx)
    (ex : UpsertExecutor) (tbTuple : Tuple) (s : ExecState Tbl Tuple Idx) :
    Step Tbl Tuple Idx :=
  -- 103-120: the partition column, if any, must map to this site
  if ex.m_partitionColumn ≠ -1 ∧
      c.isLocalSite (c.getNValue tbTuple ex.m_partitionColumn) = false then
    if ex.m_multiPartition = false then
      -- 112-115: throw ConstraintFailureException(targetTable, tbTuple, ...)
      .stop (.constraintFailure s.targetTable tbTuple) s
    else
      -- 118: continue
      .next s
  else
    upsertTuple b c tbTuple s

/-- The `while (iterator.next(tbTuple))` loop of lines 96-153 over the rows of the input
table, in order. -/
def upsertLoop {Tbl Tuple Val Idx : Type} (b : Build) (c : Collaborators Tbl Tuple Val Idx)
    (ex : UpsertExecutor) : List Tuple → ExecState Tbl Tuple Idx → Step Tbl Tuple Idx
  | [], s => .next s
  | tbTuple :: rest, s =>
    match loopBody b c ex tbTuple s with
    | .next s1 => upsertLoop b c ex rest s1
    | .stop e s1 => .stop e s1

/-- Modelled from the spec: `Table::insertTuple` on the one-column output table, which
is defined outside this file.  When the table accepts the row, the row is added after the
rows already there and true is reported; otherwise the table is left as it was and false
is reported. -/
def outputInsertTuple (accepts : Bool) (rows : List Int) (count : Int) : Bool × List Int :=
  if accepts = true then (true, rows ++ [count]) else (false, rows)

/-- What `p_execute` finds when it starts: the target table of the plan node, the rows of
the output table and the engine counter. -/
structure World (Tbl : Type) where
  targetTable : Table Tbl
  outputTable : List Int
  m_tuplesModified : Int
deriving DecidableEq, Repr

/-- The state in which the loop of `p_execute` starts. -/
def initialState {Tbl Tuple Idx : Type} (w : World Tbl) : ExecState Tbl Tuple Idx :=
  { targetTable := w.targetTable.asPersistent
    modifiedTuples := 0
    outputTable := w.outputTable
    m_tuplesModified := w.m_tuplesModified
    calls := [] }

/-- The method `UpsertExecutor::p_execute` (lines 66-170) on the input rows `inputRows`
(the contents of `*m_inputTable`).  The logging macros have no effect on the result and are
left out; the assertion of line 75 compares the tuple built from the input schema with
that schema, and the output table of line 93 is the one `setDMLCountOutputTable` created
in `p_init`, so neither assertion of lines 75 and 94 can fail. -/
def p_execute {Tbl Tuple Val Idx : Type} (b : Build) (c : Collaborators Tbl Tuple Val Idx)
    (ex : UpsertExecutor) (inputRows : List Tuple) (w : World Tbl) :
    Exit Tbl Tuple × ExecState Tbl Tuple Idx :=
  let s0 : ExecState Tbl Tuple Idx := initialState w
  -- 71-72: targetTable = dynamic_cast<PersistentTable*>(...); assert(targetTable);
  if s0.targetTable.isNone ∧ b.NDEBUG = false then (.assertFailed, s0)
  else
  -- 74: TableTuple(m_inputTable->schema())
  if ex.m_inputTable = false then (.nullDeref, s0)
  else
  -- 78-88: #ifdef DEBUG ... return false
  if b.DEBUG = true ∧ inputRows.isEmpty then (.returned false, s0)
  else
  -- 89: assert ( ! m_inputTable->isTempTableEmpty());
  if b.NDEBUG = false ∧ inputRows.isEmpty then (.assertFailed, s0)
  else
    match upsertLoop b c ex inputRows s0 with
    | .stop e s => (e, s)
    | .next s =>
      -- 155-164: count_tuple.setNValue(0, getBigIntValue(modifiedTuples)); insertTuple
      let r := outputInsertTuple (c.outputAccepts s.outputTable s.modifiedTuples)
        s.outputTable s.modifiedTuples
      if r.1 = false then (.returned false, { s with outputTable := r.2 })
      else
        -- 167-169: m_engine->m_tuplesModified += modifiedTuples; return true;
        (.returned true,
          { s with
            outputTable := r.2
            m_tuplesModified := wrapInt64 (s.m_tuplesModified + s.modifiedTuples) })

/-- Whether the loop body goes past the locality filter of lines 103-120 for `tbTuple`:
the table is unpartitioned, or the partition value is owned by this site. -/
def passesLocalityFilter {Tbl Tuple Val Idx : Type} (c : Collaborators Tbl Tuple Val Idx)
    (ex : UpsertExecutor) (tbTuple : Tuple) : Bool :=
  ex.m_partitionColumn == -1 || c.isLocalSite (c.getNValue tbTuple ex.m_partitionColumn)

/-- The sub-batch of rows that pass the locality filter, in input order. -/
def localRows {Tbl Tuple Val Idx : Type} (c : Collaborators Tbl Tuple Val Idx)
    (ex : UpsertExecutor) (inputRows : List Tuple) : List Tuple :=
  inputRows.filter (passesLocalityFilter c ex)

/-! ### The map model of the target table -/

/-- Modelled from the spec: the lookup by primary-key equality of `PersistentTable`, which
is defined outside this file; the row stored under primary-key value `k` in a table held
as the list of its rows. -/
def mapGet {Tuple K : Type} [DecidableEq K] (pk : Tuple → K) (t : List Tuple) (k : K) :
    Option Tuple :=
  t.find? (fun x => decide (pk x = k))

/-- Modelled from the spec: the storage operations of `PersistentTable`, which is defined
outside this file, with the target table as a map from primary-key value to row: the table
is the list of its rows, `pk` reads the primary key of a row, the lookup is by primary-key equality, an
insert adds the row, an update replaces the row stored under the key of the resident row;
both mutators report success.  The table has a primary-key index. -/
def mapStorage {Tuple K Val : Type} [DecidableEq K] (pk : Tuple → K)
    (getNValue : Tuple → Int → Val) (isLocalSite : Val → Bool) (partitionColumn : Int)
    (outputAccepts : List Int → Int → Bool) : Collaborators (List Tuple) Tuple Val Unit :=
  { getNValue := getNValue
    isLocalSite := isLocalSite
    partitionColumn := fun _ => partitionColumn
    primaryKeyIndex := fun _ => true
    lookupTuple := fun t tbTuple => mapGet pk t (pk tbTuple)
    insertTuple := fun t tbTuple => (true, t ++ [tbTuple])
    updateTupleWithSpecificIndexes := fun t existsTuple tbTuple _ =>
      (true, t.map (fun x => if pk x = pk existsTuple then tbTuple else x))
    allIndexes := fun _ => ()
    outputAccepts := outputAccepts }

/-- Specification side of the upsert: set the row stored under the candidate's primary key
to the candidate's values. -/
def specSetRow {Tuple K : Type} [DecidableEq K] (pk : Tuple → K) (m : K → Option Tuple)
    (candidate : Tuple) : K → Option Tuple :=
  fun k => if k = pk candidate then some candidate else m k

/-- Specification side of the upsert of a batch: `specSetRow` folded over the rows in
input order. -/
def specUpsert {Tuple K : Type} [DecidableEq K] (pk : Tuple → K) (m : K → Option Tuple)
    (rows : List Tuple) : K → Option Tuple :=
  rows.foldl (specSetRow pk) m

/-- A storage layer that behaves like `c` except that every `insertTuple` reports failure
and leaves the table as it was. -/
def rejectingInserts {Tbl Tuple Val Idx : Type} (c : Collaborators Tbl Tuple Val Idx) :
    Collaborators Tbl Tuple Val Idx :=
  { c with insertTuple := fun t _ => (false, t) }

/-- The storage calls of a batch in which every row is looked up and then inserted. -/
def lookupInsertCalls {Tuple Idx : Type} : List Tuple → List (Call Tuple Idx)
  | [] => []
  | r :: rest => .lookupTuple r :: .insertTuple r :: lookupInsertCalls rest

/-- A storage layer that behaves like `c` except that the target table has no primary-key
index. -/
def withoutPrimaryKey {Tbl Tuple Val Idx : Type} (c : Collaborators Tbl Tuple Val Idx) :
    Collaborators Tbl Tuple Val Idx :=
  { c with primaryKeyIndex := fun _ => false }

/-- A storage layer that behaves like `c` except that the output table accepts no row. -/
def rejectingOutput {Tbl Tuple Val Idx : Type} (c : Collaborators Tbl Tuple Val Idx) :
    Collaborators Tbl Tuple Val Idx :=
  { c with outputAccepts := fun _ _ => false }

/-! ### A two-column example table `(id BIGINT PRIMARY KEY, v VARCHAR)` -/

/-- The values of the example table. -/
inductive NValue where
  | bigint (i : Int)
  | varchar (s : String)
  | null
deriving DecidableEq, Repr

/-- A row `(id, v)` of the example table. -/
structure Row where
  id : Int
  v : String
deriving DecidableEq, Repr

/-- Column access on the example rows: column 0 is `id`, column 1 is `v`. -/
def Row.getNValue (r : Row) (column : Int) : NValue :=
  if column = 0 then .bigint r.id else if column = 1 then .varchar r.v else .null

/-- Locality oracle of the examples: this site owns the partition values `BIGINT n` with
`n` odd. -/
def oddIsLocal : NValue → Bool
  | .bigint i => i % 2 == 1
  | _ => false

/-- The example storage: the map model keyed by `id`, partitioned on column 0, with an
output table that accepts every row. -/
def exampleStorage : Collaborators (List Row) Row NValue Unit :=
  mapStorage Row.id Row.getNValue oddIsLocal 0 (fun _ _ => true)

/-- Executor state for the example table treated as unpartitioned. -/
def exUnpartitioned : UpsertExecutor :=
  { m_inputTable := true, m_partitionColumn := -1, m_multiPartition := false }

/-- Executor state for the example table partitioned on column 0, single-partition scope. -/
def exSingle : UpsertExecutor :=
  { m_inputTable := true, m_partitionColumn := 0, m_multiPartition := false }

/-- Executor state for the example table partitioned on column 0, multi-partition scope. -/
def exMulti : UpsertExecutor :=
  { m_inputTable := true, m_partitionColumn := 0, m_multiPartition := true }

/-- An empty persistent example table, an empty output table, engine counter 0. -/
def emptyWorld : World (List Row) :=
  { targetTable := .persistent [], outputTable := [], m_tuplesModified := 0 }

/-- A build with assertions enabled and `DEBUG` undefined. -/
def assertBuild : Build := { DEBUG := false, NDEBUG := false }

/-- A release build: `NDEBUG` defined, `DEBUG` undefined. -/
def releaseBuild : Build := { DEBUG := false, NDEBUG := true }

/-- A debug build: `DEBUG` defined, assertions enabled. -/
def debugBuild : Build := { DEBUG := true, NDEBUG := false }

/-! ## Theorems -/

/-! ### Arithmetic of the 32-bit accumulator -/

theorem wrapInt32_of_range (x : Int) (h0 : -2147483648 ≤ x) (h1 : x < 2147483648) :
    wrapInt32 x = x := by
  unfold wrapInt32
  rw [Int.emod_eq_of_lt (by omega) (by omega)]
  omega

theorem wrapInt32_wrapInt32_add (a d : Int) :
    wrapInt32 (wrapInt32 a + d) = wrapInt32 (a + d) := by
  unfold wrapInt32
  omega

theorem wrapInt32_zero : wrapInt32 0 = 0 := by decide

theorem wrapInt64_of_range (x : Int) (h0 : -9223372036854775808 ≤ x)
    (h1 : x < 9223372036854775808) : wrapInt64 x = x := by
  unfold wrapInt64
  rw [Int.emod_eq_of_lt (by omega) (by omega)]
  omega

/-! ### One iteration of the loop -/

theorem passesLocalityFilter_eq_false {Tbl Tuple Val Idx : Type}
    (c : Collaborators Tbl Tuple Val Idx) (ex : UpsertExecutor) (tb : Tuple) :
    passesLocalityFilter c ex tb = false ↔
      (ex.m_partitionColumn ≠ -1 ∧
        c.isLocalSite (c.getNValue tb ex.m_partitionColumn) = false) := by
  simp [passesLocalityFilter]

theorem loopBody_of_not_passes {Tbl Tuple Val Idx : Type} (b : Build)
    (c : Collaborators Tbl Tuple Val Idx) (ex : UpsertExecutor) (tb : Tuple)
    (s : ExecState Tbl Tuple Idx) (h : passesLocalityFilter c ex tb = false) :
    loopBody b c ex tb s =
      if ex.m_multiPartition = false then .stop (.constraintFailure s.targetTable tb) s
      else .next s := by
  have h1 := (passesLocalityFilter_eq_false c ex tb).1 h
  unfold loopBody
  rw [if_pos h1]

theorem loopBody_of_passes {Tbl Tuple Val Idx : Type} (b : Build)
    (c : Collaborators Tbl Tuple Val Idx) (ex : UpsertExecutor) (tb : Tuple)
    (s : ExecState Tbl Tuple Idx) (h : passesLocalityFilter c ex tb = true) :
    loopBody b c ex tb s = upsertTuple b c tb s := by
  have h1 : ¬ (ex.m_partitionColumn ≠ -1 ∧
      c.isLocalSite (c.getNValue tb ex.m_partitionColumn) = false) := by
    intro h2
    rw [(passesLocalityFilter_eq_false c ex tb).2 h2] at h
    exact Bool.noConfusion h
  unfold loopBody
  rw [if_neg h1]

theorem upsertTuple_next {Tbl Tuple Val Idx : Type} (b : Build)
    (c : Collaborators Tbl Tuple Val Idx) (tb : Tuple) (s s1 : ExecState Tbl Tuple Idx)
    (h : upsertTuple b c tb s = .next s1) :
    s1.outputTable = s.outputTable ∧ s1.m_tuplesModified = s.m_tuplesModified ∧
      s1.modifiedTuples = wrapInt32 (s.modifiedTuples + 1) ∧
      s1.calls.countP Call.isMutation = s.calls.countP Call.isMutation + 1 ∧
      s1.targetTable.isSome = true ∧ s.targetTable.isSome = true := by
  unfold upsertTuple at h
  split at h
  · exact Step.noConfusion h
  · rename_i t ht
    split at h
    · exact Step.noConfusion h
    · split at h
      · simp only at h
        split at h
        · exact Step.noConfusion h
        · injection h with h
          subst h
          simp [ht, List.countP_append, List.countP_cons, Call.isMutation]
      · simp only at h
        split at h
        · exact Step.noConfusion h
        · injection h with h
          subst h
          simp [ht, List.countP_append, List.countP_cons, Call.isMutation]

theorem upsertTuple_stop {Tbl Tuple Val Idx : Type} (b : Build)
    (c : Collaborators Tbl Tuple Val Idx) (tb : Tuple) (s s1 : ExecState Tbl Tuple Idx)
    (e : Exit Tbl Tuple) (h : upsertTuple b c tb s = .stop e s1) :
    s1.outputTable = s.outputTable ∧ s1.m_tuplesModified = s.m_tuplesModified ∧
      (e = .returned false ∨ e = .assertFailed ∨ e = .nullDeref) := by
  unfold upsertTuple at h
  split at h
  · injection h with h1 h2
    subst h1 h2
    simp
  · split at h
    · injection h with h1 h2
      subst h1 h2
      simp
    · split at h
      · simp only at h
        split at h
        · injection h with h1 h2
          subst h1 h2
          simp
        · exact Step.noConfusion h
      · simp only at h
        split at h
        · injection h with h1 h2
          subst h1 h2
          simp
        · exact Step.noConfusion h

/-! ### The loop -/

theorem upsertLoop_nil {Tbl Tuple Val Idx : Type} (b : Build)
    (c : Collaborators Tbl Tuple Val Idx) (ex : UpsertExecutor)
    (s : ExecState Tbl Tuple Idx) : upsertLoop b c ex [] s = .next s :=
  rfl

theorem upsertLoop_cons {Tbl Tuple Val Idx : Type} (b : Build)
    (c : Collaborators Tbl Tuple Val Idx) (ex : UpsertExecutor) (tb : Tuple)
    (rest : List Tuple) (s : ExecState Tbl Tuple Idx) :
    upsertLoop b c ex (tb :: rest) s =
      match loopBody b c ex tb s with
      | .next s1 => upsertLoop b c ex rest s1
      | .stop e s1 => .stop e s1 :=
  rfl

theorem localRows_cons {Tbl Tuple Val Idx : Type} (c : Collaborators Tbl Tuple Val Idx)
    (ex : UpsertExecutor) (tb : Tuple) (rows : List Tuple) :
    localRows c ex (tb :: rows) =
      if passesLocalityFilter c ex tb = true then tb :: localRows c ex rows
      else localRows c ex rows := by
  unfold localRows
  by_cases h : passesLocalityFilter c ex tb = true
  · simp [List.filter_cons, h]
  · simp [List.filter_cons, h]

theorem localRows_of_unpartitioned {Tbl Tuple Val Idx : Type}
    (c : Collaborators Tbl Tuple Val Idx) (ex : UpsertExecutor) (rows : List Tuple)
    (h : ex.m_partitionColumn = -1) : localRows c ex rows = rows := by
  unfold localRows
  apply List.filter_eq_self.2
  intro tb _
  simp [passesLocalityFilter, h]

theorem upsertLoop_next {Tbl Tuple Val Idx : Type} (b : Build)
    (c : Collaborators Tbl Tuple Val Idx) (ex : UpsertExecutor) (rows : List Tuple) :
    ∀ (s s1 : ExecState Tbl Tuple Idx), upsertLoop b c ex rows s = .next s1 →
      s1.outputTable = s.outputTable ∧ s1.m_tuplesModified = s.m_tuplesModified ∧
      (∀ n : Int, s.modifiedTuples = wrapInt32 n →
        s1.modifiedTuples = wrapInt32 (n + ((localRows c ex rows).length : Int))) ∧
      s1.calls.countP Call.isMutation =
        s.calls.countP Call.isMutation + (localRows c ex rows).length ∧
      (ex.m_multiPartition = false → localRows c ex rows = rows) := by
  induction rows with
  | nil =>
    intro s s1 h
    unfold upsertLoop at h
    injection h with h
    subst h
    simp [localRows]
  | cons tb rest ih =>
    intro s s1 h
    unfold upsertLoop at h
    rw [localRows_cons]
    by_cases hp : passesLocalityFilter c ex tb = true
    · rw [loopBody_of_passes b c ex tb s hp] at h
      rw [if_pos hp]
      cases hstep : upsertTuple b c tb s with
      | stop e s2 =>
        rw [hstep] at h
        exact Step.noConfusion h
      | next s2 =>
        rw [hstep] at h
        simp only at h
        obtain ⟨a1, a2, a3, a4, -, -⟩ := upsertTuple_next b c tb s s2 hstep
        obtain ⟨r1, r2, r3, r4, r5⟩ := ih s2 s1 h
        refine ⟨r1.trans a1, r2.trans a2, ?_, ?_, ?_⟩
        · intro n hn
          have h3 : s2.modifiedTuples = wrapInt32 (n + 1) := by
            rw [a3, hn, wrapInt32_wrapInt32_add]
          have h4 := r3 (n + 1) h3
          rw [h4]
          congr 1
          simp only [List.length_cons]
          push_cast
          ring
        · rw [r4, a4]
          simp only [List.length_cons]
          omega
        · intro hm
          rw [r5 hm]
    · have hp1 : passesLocalityFilter c ex tb = false := by
        cases hq : passesLocalityFilter c ex tb
        · rfl
        · exact absurd hq hp
      rw [loopBody_of_not_passes b c ex tb s hp1] at h
      rw [if_neg hp]
      by_cases hm : ex.m_multiPartition = false
      · rw [if_pos hm] at h
        exact Step.noConfusion h
      · rw [if_neg hm] at h
        simp only at h
        obtain ⟨r1, r2, r3, r4, -⟩ := ih s s1 h
        exact ⟨r1, r2, r3, r4, fun h5 => absurd h5 hm⟩

theorem upsertLoop_stop {Tbl Tuple Val Idx : Type} (b : Build)
    (c : Collaborators Tbl Tuple Val Idx) (ex : UpsertExecutor) (rows : List Tuple) :
    ∀ (s s1 : ExecState Tbl Tuple Idx) (e : Exit Tbl Tuple),
      upsertLoop b c ex rows s = .stop e s1 →
      s1.outputTable = s.outputTable ∧ s1.m_tuplesModified = s.m_tuplesModified ∧
      e ≠ .returned true := by
  induction rows with
  | nil =>
    intro s s1 e h
    unfold upsertLoop at h
    exact Step.noConfusion h
  | cons tb rest ih =>
    intro s s1 e h
    unfold upsertLoop at h
    cases hstep : loopBody b c ex tb s with
    | next s2 =>
      rw [hstep] at h
      simp only at h
      obtain ⟨r1, r2, r3⟩ := ih s2 s1 e h
      have hkeep : s2.outputTable = s.outputTable ∧
          s2.m_tuplesModified = s.m_tuplesModified := by
        by_cases hp : passesLocalityFilter c ex tb = true
        · rw [loopBody_of_passes b c ex tb s hp] at hstep
          obtain ⟨a1, a2, -⟩ := upsertTuple_next b c tb s s2 hstep
          exact ⟨a1, a2⟩
        · have hp1 : passesLocalityFilter c ex tb = false := by
            cases hq : passesLocalityFilter c ex tb
            · rfl
            · exact absurd hq hp
          rw [loopBody_of_not_passes b c ex tb s hp1] at hstep
          split at hstep
          · exact Step.noConfusion hstep
          · injection hstep with hstep
            subst hstep
            exact ⟨rfl, rfl⟩
      exact ⟨r1.trans hkeep.1, r2.trans hkeep.2, r3⟩
    | stop e2 s2 =>
      rw [hstep] at h
      simp only at h
      injection h with h1 h2
      subst h1 h2
      by_cases hp : passesLocalityFilter c ex tb = true
      · rw [loopBody_of_passes b c ex tb s hp] at hstep
        obtain ⟨a1, a2, a3⟩ := upsertTuple_stop b c tb s s2 e2 hstep
        refine ⟨a1, a2, ?_⟩
        rcases a3 with a3 | a3 | a3 <;> rw [a3] <;> simp
      · have hp1 : passesLocalityFilter c ex tb = false := by
          cases hq : passesLocalityFilter c ex tb
          · rfl
          · exact absurd hq hp
        rw [loopBody_of_not_passes b c ex tb s hp1] at hstep
        split at hstep
        · injection hstep with h1 h2
          subst h1 h2
          simp
        · exact Step.noConfusion hstep

/-! ### The whole of `p_execute` -/

theorem p_execute_eq_of_loop {Tbl Tuple Val Idx : Type} (b : Build)
    (c : Collaborators Tbl Tuple Val Idx) (ex : UpsertExecutor) (rows : List Tuple)
    (w : World Tbl) (t : Tbl) (ht : w.targetTable = .persistent t)
    (hin : ex.m_inputTable = true)
    (hne : rows ≠ [] ∨ (b.DEBUG = false ∧ b.NDEBUG = true)) :
    p_execute b c ex rows w =
      match upsertLoop b c ex rows (initialState w) with
      | .stop e s => (e, s)
      | .next s =>
        if c.outputAccepts s.outputTable s.modifiedTuples = false then (.returned false, s)
        else
          (.returned true,
            { s with
              outputTable := s.outputTable ++ [s.modifiedTuples]
              m_tuplesModified := wrapInt64 (s.m_tuplesModified + s.modifiedTuples) }) := by
  have h0 : (initialState w : ExecState Tbl Tuple Idx).targetTable = some t := by
    simp [initialState, ht, Table.asPersistent]
  unfold p_execute
  simp only [h0, Option.isNone_some, Bool.false_eq_true, false_and, if_false, hin]
  have h1 : ¬ (b.DEBUG = true ∧ rows.isEmpty = true) := by
    rintro ⟨h2, h3⟩
    rcases hne with hne | hne
    · exact hne (List.isEmpty_iff.1 h3)
    · rw [hne.1] at h2
      exact Bool.noConfusion h2
  have h2 : ¬ (b.NDEBUG = false ∧ rows.isEmpty = true) := by
    rintro ⟨h2, h3⟩
    rcases hne with hne | hne
    · exact hne (List.isEmpty_iff.1 h3)
    · rw [hne.2] at h2
      exact Bool.noConfusion h2
  rw [if_neg h1, if_neg h2]
  cases upsertLoop b c ex rows (initialState w) with
  | stop e s1 => simp
  | next s1 =>
    cases hacc : c.outputAccepts s1.outputTable s1.modifiedTuples <;>
      simp [outputInsertTuple, hacc]

theorem p_execute_success {Tbl Tuple Val Idx : Type} (b : Build)
    (c : Collaborators Tbl Tuple Val Idx) (ex : UpsertExecutor) (rows : List Tuple)
    (w : World Tbl) (s : ExecState Tbl Tuple Idx)
    (h : p_execute b c ex rows w = (.returned true, s)) :
    ∃ s1, upsertLoop b c ex rows (initialState w) = .next s1 ∧
      c.outputAccepts s1.outputTable s1.modifiedTuples = true ∧
      s = { s1 with
            outputTable := s1.outputTable ++ [s1.modifiedTuples]
            m_tuplesModified := wrapInt64 (s1.m_tuplesModified + s1.modifiedTuples) } := by
  unfold p_execute at h
  simp only at h
  split at h
  · simp at h
  · split at h
    · simp at h
    · split at h
      · simp at h
      · split at h
        · simp at h
        · split at h
          · rename_i e s1 hl
            obtain ⟨-, -, hne⟩ := upsertLoop_stop b c ex rows _ s1 e hl
            simp only [Prod.mk.injEq] at h
            exact absurd h.1 hne
          · rename_i s1 hl
            cases hacc : c.outputAccepts s1.outputTable s1.modifiedTuples
            · simp [outputInsertTuple, hacc] at h
            · simp only [outputInsertTuple, hacc, if_true, Bool.true_eq_false, if_false,
                Prod.mk.injEq, true_and] at h
              exact ⟨s1, hl, hacc, h.symm⟩

theorem initialState_modifiedTuples {Tbl Tuple Idx : Type} (w : World Tbl) :
    (initialState w : ExecState Tbl Tuple Idx).modifiedTuples = wrapInt32 0 := by
  rw [wrapInt32_zero]
  rfl

theorem p_execute_success_count {Tbl Tuple Val Idx : Type} (b : Build)
    (c : Collaborators Tbl Tuple Val Idx) (ex : UpsertExecutor) (rows : List Tuple)
    (w : World Tbl) (s : ExecState Tbl Tuple Idx)
    (h : p_execute b c ex rows w = (.returned true, s)) :
    s.outputTable = w.outputTable ++ [wrapInt32 ((localRows c ex rows).length : Int)] ∧
      s.modifiedTuples = wrapInt32 ((localRows c ex rows).length : Int) ∧
      s.m_tuplesModified =
        wrapInt64 (w.m_tuplesModified + wrapInt32 ((localRows c ex rows).length : Int)) ∧
      s.calls.countP Call.isMutation = (localRows c ex rows).length ∧
      (ex.m_multiPartition = false → localRows c ex rows = rows) := by
  obtain ⟨s1, hl, -, hs⟩ := p_execute_success b c ex rows w s h
  obtain ⟨r1, r2, r3, r4, r5⟩ := upsertLoop_next b c ex rows _ s1 hl
  have hm := r3 0 (initialState_modifiedTuples w)
  rw [zero_add] at hm
  subst hs
  refine ⟨?_, hm, ?_, ?_, r5⟩
  · simp only [r1, hm]
    rfl
  · simp only [r2, hm]
    rfl
  · simp only [r4]
    simp [initialState]

theorem upsertLoop_never_stops {Tbl Tuple Val Idx : Type} (b : Build)
    (c : Collaborators Tbl Tuple Val Idx) (ex : UpsertExecutor)
    (hpk : ∀ t, c.primaryKeyIndex t = true)
    (hins : ∀ t tb, (c.insertTuple t tb).1 = true)
    (hupd : ∀ t e tb i, (c.updateTupleWithSpecificIndexes t e tb i).1 = true)
    (rows : List Tuple) :
    ∀ (s : ExecState Tbl Tuple Idx), s.targetTable.isSome = true →
      (∀ tb ∈ rows, passesLocalityFilter c ex tb = false → ex.m_multiPartition = true) →
      ∃ s1, upsertLoop b c ex rows s = .next s1 := by
  induction rows with
  | nil =>
    intro s _ _
    exact ⟨s, rfl⟩
  | cons tb rest ih =>
    intro s hs hloc
    have hrest : ∀ x ∈ rest, passesLocalityFilter c ex x = false →
        ex.m_multiPartition = true :=
      fun x hx => hloc x (List.mem_cons_of_mem tb hx)
    unfold upsertLoop
    by_cases hp : passesLocalityFilter c ex tb = true
    · rw [loopBody_of_passes b c ex tb s hp]
      obtain ⟨t, ht⟩ := Option.isSome_iff_exists.1 hs
      unfold upsertTuple
      simp only [ht, hpk, Bool.true_eq_false, false_and, if_false]
      cases hlk : c.lookupTuple t tb with
      | none =>
        simp only [hins, Bool.true_eq_false, if_false]
        exact ih _ rfl hrest
      | some e =>
        simp only [hupd, Bool.true_eq_false, if_false]
        exact ih _ rfl hrest
    · have hp1 : passesLocalityFilter c ex tb = false := by
        cases hq : passesLocalityFilter c ex tb
        · rfl
        · exact absurd hq hp
      rw [loopBody_of_not_passes b c ex tb s hp1]
      have hm := hloc tb (List.mem_cons_self tb rest) hp1
      simp only [hm, Bool.true_eq_false, if_false]
      exact ih s hs hrest

theorem p_execute_of_never_fails {Tbl Tuple Val Idx : Type} (b : Build)
    (c : Collaborators Tbl Tuple Val Idx) (ex : UpsertExecutor) (rows : List Tuple)
    (w : World Tbl) (t : Tbl) (ht : w.targetTable = .persistent t)
    (hin : ex.m_inputTable = true) (hne : rows ≠ [])
    (hpk : ∀ t, c.primaryKeyIndex t = true)
    (hins : ∀ t tb, (c.insertTuple t tb).1 = true)
    (hupd : ∀ t e tb i, (c.updateTupleWithSpecificIndexes t e tb i).1 = true)
    (hacc : ∀ o n, c.outputAccepts o n = true)
    (hloc : ∀ tb ∈ rows, passesLocalityFilter c ex tb = false →
      ex.m_multiPartition = true) :
    ∃ s, p_execute b c ex rows w = (.returned true, s) := by
  have h0 : (initialState w : ExecState Tbl Tuple Idx).targetTable.isSome = true := by
    simp [initialState, ht, Table.asPersistent]
  obtain ⟨s1, hl⟩ := upsertLoop_never_stops b c ex hpk hins hupd rows _ h0 hloc
  rw [p_execute_eq_of_loop b c ex rows w t ht hin (Or.inl hne), hl]
  simp only [hacc, Bool.true_eq_false, if_false]
  exact ⟨_, rfl⟩

/-! ### C1 -/

/-- C1 (amended): whenever `p_execute` returns true, exactly one row has been appended to
the output table; its value is the 32-bit `int` image of the number of input rows that
passed the locality filter, which is that number itself whenever it is below 2^31.  The
rows that passed are exactly the rows for which an insert or an update was invoked; they
are all rows of the batch when the table is unpartitioned or the scope is
single-partition. -/
theorem C1_result_row_counts_applied_rows {Tbl Tuple Val Idx : Type} (b : Build)
    (c : Collaborators Tbl Tuple Val Idx) (ex : UpsertExecutor) (rows : List Tuple)
    (w : World Tbl) (s : ExecState Tbl Tuple Idx)
    (h : p_execute b c ex rows w = (.returned true, s)) :
    (∃ v, s.outputTable = w.outputTable ++ [v]) ∧
      ((localRows c ex rows).length < 2147483648 →
        s.outputTable = w.outputTable ++ [((localRows c ex rows).length : Int)]) ∧
      s.calls.countP Call.isMutation = (localRows c ex rows).length ∧
      (ex.m_partitionColumn = -1 → localRows c ex rows = rows) ∧
      (ex.m_multiPartition = false → localRows c ex rows = rows) := by
  obtain ⟨r1, -, -, r4, r5⟩ := p_execute_success_count b c ex rows w s h
  refine ⟨⟨_, r1⟩, ?_, r4, localRows_of_unpartitioned c ex rows, r5⟩
  intro hfit
  rw [r1, wrapInt32_of_range _ (by omega) (by omega)]

/-- C1 witness: two rows against the empty unpartitioned example table. -/
theorem C1_result_row_counts_applied_rows_witness :
    p_execute assertBuild exampleStorage exUnpartitioned [⟨1, "a"⟩, ⟨2, "b"⟩] emptyWorld =
        (.returned true,
          ⟨some [⟨1, "a"⟩, ⟨2, "b"⟩], 2, [2], 2,
            [.lookupTuple ⟨1, "a"⟩, .insertTuple ⟨1, "a"⟩, .lookupTuple ⟨2, "b"⟩,
              .insertTuple ⟨2, "b"⟩]⟩) ∧
      ((localRows exampleStorage exUnpartitioned [(⟨1, "a"⟩ : Row), ⟨2, "b"⟩]).length
          < 2147483648 →
        ([2] : List Int) = [] ++ [((localRows exampleStorage exUnpartitioned
          [(⟨1, "a"⟩ : Row), ⟨2, "b"⟩]).length : Int)]) :=
  ⟨by decide,
    (C1_result_row_counts_applied_rows assertBuild exampleStorage exUnpartitioned
      [⟨1, "a"⟩, ⟨2, "b"⟩] emptyWorld
      ⟨some [⟨1, "a"⟩, ⟨2, "b"⟩], 2, [2], 2,
        [.lookupTuple ⟨1, "a"⟩, .insertTuple ⟨1, "a"⟩, .lookupTuple ⟨2, "b"⟩,
          .insertTuple ⟨2, "b"⟩]⟩ (by decide)).2.1⟩

/-- C1 counterexample: 2^31 copies of one row against the empty unpartitioned example
table.  `p_execute` returns true and the row it writes holds -2^31, while 2^31 rows passed
the locality filter. -/
theorem C1_counterexample :
    (p_execute assertBuild exampleStorage exUnpartitioned
        (List.replicate 2147483648 (⟨1, "a"⟩ : Row)) emptyWorld).1 = .returned true ∧
      (p_execute assertBuild exampleStorage exUnpartitioned
        (List.replicate 2147483648 (⟨1, "a"⟩ : Row)) emptyWorld).2.outputTable =
        [-2147483648] ∧
      (localRows exampleStorage exUnpartitioned
        (List.replicate 2147483648 (⟨1, "a"⟩ : Row))).length = 2147483648 := by
  have hlen : (List.replicate 2147483648 (⟨1, "a"⟩ : Row)).length = 2147483648 :=
    List.length_replicate _ _
  generalize List.replicate 2147483648 (⟨1, "a"⟩ : Row) = rows at hlen ⊢
  have hne : rows ≠ [] := by
    intro h0
    rw [h0] at hlen
    exact absurd hlen (by decide)
  have hlocal : localRows exampleStorage exUnpartitioned rows = rows :=
    localRows_of_unpartitioned _ _ _ rfl
  obtain ⟨s, hs⟩ := p_execute_of_never_fails assertBuild exampleStorage exUnpartitioned
    rows emptyWorld [] rfl rfl hne (fun _ => rfl) (fun _ _ => rfl)
    (fun _ _ _ _ => rfl) (fun _ _ => rfl)
    (fun tb _ hp => by simp [passesLocalityFilter, exUnpartitioned] at hp)
  obtain ⟨r1, -⟩ := p_execute_success_count _ _ _ _ _ _ hs
  rw [hs, hlocal, hlen]
  refine ⟨rfl, ?_, rfl⟩
  rw [r1, hlocal, hlen]
  decide

/-! ### C2 -/

theorem upsertLoop_append {Tbl Tuple Val Idx : Type} (b : Build)
    (c : Collaborators Tbl Tuple Val Idx) (ex : UpsertExecutor) (pre post : List Tuple) :
    ∀ (s : ExecState Tbl Tuple Idx), upsertLoop b c ex (pre ++ post) s =
      match upsertLoop b c ex pre s with
      | .next s1 => upsertLoop b c ex post s1
      | .stop e s1 => .stop e s1 := by
  induction pre with
  | nil =>
    intro s
    rfl
  | cons tb rest ih =>
    intro s
    rw [List.cons_append, upsertLoop_cons, upsertLoop_cons]
    cases loopBody b c ex tb s with
    | next s2 => exact ih s2
    | stop e s2 => rfl

theorem exists_first_nonlocal {Tbl Tuple Val Idx : Type}
    (c : Collaborators Tbl Tuple Val Idx) (ex : UpsertExecutor) (rows : List Tuple)
    (h : ∃ r ∈ rows, passesLocalityFilter c ex r = false) :
    ∃ pre r post, rows = pre ++ r :: post ∧
      (∀ x ∈ pre, passesLocalityFilter c ex x = true) ∧
      passesLocalityFilter c ex r = false := by
  induction rows with
  | nil =>
    obtain ⟨r, hr, -⟩ := h
    exact absurd hr (List.not_mem_nil r)
  | cons tb rest ih =>
    cases hp : passesLocalityFilter c ex tb with
    | false => exact ⟨[], tb, rest, rfl, fun x hx => absurd hx (List.not_mem_nil x), hp⟩
    | true =>
      obtain ⟨r, hr, hr2⟩ := h
      have hmem : r ∈ rest := by
        rcases List.mem_cons.1 hr with h1 | h1
        · rw [h1, hp] at hr2
          exact Bool.noConfusion hr2
        · exact h1
      obtain ⟨pre, r1, post, e1, e2, e3⟩ := ih ⟨r, hmem, hr2⟩
      refine ⟨tb :: pre, r1, post, by rw [e1]; rfl, ?_, e3⟩
      intro x hx
      rcases List.mem_cons.1 hx with h1 | h1
      · rw [h1]
        exact hp
      · exact e2 x h1

/-- C2 (amended): for a persistent target partitioned on some column, in single-partition
scope, a batch containing a row whose partition value `isLocalSite` reports as non-local
never makes `p_execute` return true and never adds a row to the output table.  With `r`
the first such row: if the loop over the rows before `r` ends early (an insert or update
reporting failure, or the primary-key assertion), `p_execute` ends that way; otherwise it
ends with the `ConstraintFailureException` carrying the target table and `r`, all rows
before `r` applied. -/
theorem C2_mispartitioned_row_aborts {Tbl Tuple Val Idx : Type} (b : Build)
    (c : Collaborators Tbl Tuple Val Idx) (ex : UpsertExecutor) (rows : List Tuple)
    (w : World Tbl) (t : Tbl) (ht : w.targetTable = .persistent t)
    (hin : ex.m_inputTable = true) (hpart : ex.m_partitionColumn ≠ -1)
    (hsingle : ex.m_multiPartition = false)
    (hrow : ∃ r ∈ rows, c.isLocalSite (c.getNValue r ex.m_partitionColumn) = false) :
    (p_execute b c ex rows w).1 ≠ .returned true ∧
      (p_execute b c ex rows w).2.outputTable = w.outputTable ∧
      ∃ pre r post, rows = pre ++ r :: post ∧
        (∀ x ∈ pre, c.isLocalSite (c.getNValue x ex.m_partitionColumn) = true) ∧
        c.isLocalSite (c.getNValue r ex.m_partitionColumn) = false ∧
        p_execute b c ex rows w =
          match upsertLoop b c ex pre (initialState w) with
          | .next s => (.constraintFailure s.targetTable r, s)
          | .stop e s => (e, s) := by
  have hrow1 : ∃ r ∈ rows, passesLocalityFilter c ex r = false := by
    obtain ⟨r, hr, hr2⟩ := hrow
    exact ⟨r, hr, (passesLocalityFilter_eq_false c ex r).2 ⟨hpart, hr2⟩⟩
  obtain ⟨pre, r, post, e1, e2, e3⟩ := exists_first_nonlocal c ex rows hrow1
  have hne : rows ≠ [] := by
    rw [e1]
    simp
  have hloop : upsertLoop b c ex rows (initialState w) =
      match upsertLoop b c ex pre (initialState w) with
      | .next s => .stop (.constraintFailure s.targetTable r) s
      | .stop e s => .stop e s := by
    rw [e1, upsertLoop_append]
    cases upsertLoop b c ex pre (initialState w) with
    | next s1 =>
      simp only
      rw [upsertLoop_cons, loopBody_of_not_passes b c ex r s1 e3, if_pos hsingle]
    | stop e s1 => rfl
  have hexec : p_execute b c ex rows w =
      match upsertLoop b c ex pre (initialState w) with
      | .next s => (.constraintFailure s.targetTable r, s)
      | .stop e s => (e, s) := by
    rw [p_execute_eq_of_loop b c ex rows w t ht hin (Or.inl hne), hloop]
    cases upsertLoop b c ex pre (initialState w) <;> rfl
  refine ⟨?_, ?_, pre, r, post, e1, ?_, (passesLocalityFilter_eq_false c ex r).1 e3 |>.2,
    hexec⟩
  · rw [hexec]
    cases hl : upsertLoop b c ex pre (initialState w) with
    | next s1 => simp
    | stop e s1 =>
      simp only
      exact (upsertLoop_stop b c ex pre _ s1 e hl).2.2
  · rw [hexec]
    cases hl : upsertLoop b c ex pre (initialState w) with
    | next s1 =>
      simp only
      exact (upsertLoop_next b c ex pre _ s1 hl).1
    | stop e s1 =>
      simp only
      exact (upsertLoop_stop b c ex pre _ s1 e hl).1
  · intro x hx
    have h1 := e2 x hx
    simp only [passesLocalityFilter, Bool.or_eq_true, beq_iff_eq] at h1
    rcases h1 with h1 | h1
    · exact absurd h1 hpart
    · exact h1

/-- C2 witness: the batch `[(1, a), (2, b)]` on the example table in single-partition scope;
the row with `id = 2` is not local. -/
theorem C2_mispartitioned_row_aborts_witness :
    (∃ r ∈ [(⟨1, "a"⟩ : Row), ⟨2, "b"⟩],
        exampleStorage.isLocalSite
          (exampleStorage.getNValue r exSingle.m_partitionColumn) = false) ∧
      (p_execute assertBuild exampleStorage exSingle [⟨1, "a"⟩, ⟨2, "b"⟩] emptyWorld).1 ≠
        .returned true ∧
      (p_execute assertBuild exampleStorage exSingle [⟨1, "a"⟩, ⟨2, "b"⟩]
        emptyWorld).2.outputTable = emptyWorld.outputTable :=
  ⟨⟨⟨2, "b"⟩, by decide, by decide⟩,
    (C2_mispartitioned_row_aborts assertBuild exampleStorage exSingle [⟨1, "a"⟩, ⟨2, "b"⟩]
      emptyWorld [] rfl rfl (by decide) rfl ⟨⟨2, "b"⟩, by decide, by decide⟩).1,
    (C2_mispartitioned_row_aborts assertBuild exampleStorage exSingle [⟨1, "a"⟩, ⟨2, "b"⟩]
      emptyWorld [] rfl rfl (by decide) rfl ⟨⟨2, "b"⟩, by decide, by decide⟩).2.1⟩

/-- C2 counterexample: single-partition scope, table partitioned on `id`, batch
`[(1, a), (2, b)]` where `id = 1` is local and `id = 2` is not, on a storage whose insert
reports failure.  `p_execute` returns false at the first row (line 137); no
`ConstraintFailureException` is thrown. -/
theorem C2_counterexample :
    exSingle.m_partitionColumn ≠ -1 ∧ exSingle.m_multiPartition = false ∧
      oddIsLocal (Row.getNValue ⟨2, "b"⟩ exSingle.m_partitionColumn) = false ∧
      p_execute assertBuild (rejectingInserts exampleStorage) exSingle
          [⟨1, "a"⟩, ⟨2, "b"⟩] emptyWorld =
        (.returned false,
          ⟨some [], 0, [], 0, [.lookupTuple ⟨1, "a"⟩, .insertTuple ⟨1, "a"⟩]⟩) := by
  decide

/-! ### C3 -/

theorem upsertLoop_localRows {Tbl Tuple Val Idx : Type} (b : Build)
    (c : Collaborators Tbl Tuple Val Idx) (ex : UpsertExecutor)
    (hmulti : ex.m_multiPartition = true) (rows : List Tuple) :
    ∀ (s : ExecState Tbl Tuple Idx),
      upsertLoop b c ex rows s = upsertLoop b c ex (localRows c ex rows) s := by
  induction rows with
  | nil =>
    intro s
    rfl
  | cons tb rest ih =>
    intro s
    rw [localRows_cons]
    by_cases hp : passesLocalityFilter c ex tb = true
    · rw [if_pos hp, upsertLoop_cons, upsertLoop_cons]
      cases loopBody b c ex tb s with
      | next s2 => exact ih s2
      | stop e s2 => rfl
    · have hp1 : passesLocalityFilter c ex tb = false := by
        cases hq : passesLocalityFilter c ex tb
        · rfl
        · exact absurd hq hp
      rw [if_neg hp, upsertLoop_cons, loopBody_of_not_passes b c ex tb s hp1]
      simp only [hmulti, Bool.true_eq_false, if_false]
      exact ih s

theorem p_execute_congr_loop {Tbl Tuple Val Idx : Type} (b : Build)
    (c : Collaborators Tbl Tuple Val Idx) (ex : UpsertExecutor) (rows1 rows2 : List Tuple)
    (w : World Tbl)
    (hloop : upsertLoop b c ex rows1 (initialState w) =
      upsertLoop b c ex rows2 (initialState w))
    (hempty : rows1.isEmpty = rows2.isEmpty ∨ (b.DEBUG = false ∧ b.NDEBUG = true)) :
    p_execute b c ex rows1 w = p_execute b c ex rows2 w := by
  unfold p_execute
  rcases hempty with h | h
  · simp only [hloop, h]
  · simp only [hloop, h.1, h.2, Bool.false_eq_true, Bool.true_eq_false, false_and,
      if_false]

/-- C3 (amended): in multi-partition scope `p_execute` on a batch ends in the same way and
in the same state (target table, count, output table, engine counter, storage calls) as
`p_execute` on the sub-batch of its locally owned rows, provided that sub-batch is
non-empty, or the batch is empty, or the build defines `NDEBUG` and not `DEBUG`.  The loop
itself treats the two batches alike from every state, and an iteration for a non-local row
goes on to the next row in an unchanged state: no storage call, no failure, no change of
the count. -/
theorem C3_multi_partition_equals_local_subbatch {Tbl Tuple Val Idx : Type} (b : Build)
    (c : Collaborators Tbl Tuple Val Idx) (ex : UpsertExecutor) (rows : List Tuple)
    (w : World Tbl) (hmulti : ex.m_multiPartition = true)
    (hne : localRows c ex rows ≠ [] ∨ rows = [] ∨ (b.DEBUG = false ∧ b.NDEBUG = true)) :
    p_execute b c ex rows w = p_execute b c ex (localRows c ex rows) w ∧
      (∀ s : ExecState Tbl Tuple Idx,
        upsertLoop b c ex rows s = upsertLoop b c ex (localRows c ex rows) s) ∧
      (∀ (tb : Tuple) (s : ExecState Tbl Tuple Idx),
        passesLocalityFilter c ex tb = false → loopBody b c ex tb s = .next s) := by
  refine ⟨?_, upsertLoop_localRows b c ex hmulti rows, ?_⟩
  · apply p_execute_congr_loop b c ex rows (localRows c ex rows) w
      (upsertLoop_localRows b c ex hmulti rows _)
    rcases hne with h | h | h
    · left
      have h1 : rows ≠ [] := by
        intro h0
        rw [h0] at h
        exact h rfl
      cases hr : rows with
      | nil => exact absurd hr h1
      | cons x xs =>
        rw [← hr]
        cases hl : localRows c ex rows with
        | nil => exact absurd hl h
        | cons y ys =>
          rw [hr]
          rfl
    · left
      rw [h]
      rfl
    · right
      exact h
  · intro tb s hp
    rw [loopBody_of_not_passes b c ex tb s hp]
    simp [hmulti]

/-- C3 witness: the batch `[(1, a), (2, b), (3, c)]` on the example table in multi-partition
scope; the rows with `id` 1 and 3 are local. -/
theorem C3_multi_partition_equals_local_subbatch_witness :
    exMulti.m_multiPartition = true ∧
      localRows exampleStorage exMulti [⟨1, "a"⟩, ⟨2, "b"⟩, ⟨3, "c"⟩] ≠ [] ∧
      p_execute assertBuild exampleStorage exMulti [⟨1, "a"⟩, ⟨2, "b"⟩, ⟨3, "c"⟩]
          emptyWorld =
        p_execute assertBuild exampleStorage exMulti
          (localRows exampleStorage exMulti [⟨1, "a"⟩, ⟨2, "b"⟩, ⟨3, "c"⟩]) emptyWorld :=
  ⟨rfl, by decide,
    (C3_multi_partition_equals_local_subbatch assertBuild exampleStorage exMulti
      [⟨1, "a"⟩, ⟨2, "b"⟩, ⟨3, "c"⟩] emptyWorld rfl (Or.inl (by decide))).1⟩

/-- C3 counterexample: multi-partition scope, assertions enabled, the one-row batch
`[(2, b)]` whose row is not local.  `p_execute` on the batch returns true with count 0,
while `p_execute` on its (empty) sub-batch of local rows fails the assertion of line 89. -/
theorem C3_counterexample :
    exMulti.m_multiPartition = true ∧ exMulti.m_partitionColumn ≠ -1 ∧
      localRows exampleStorage exMulti [⟨2, "b"⟩] = [] ∧
      p_execute assertBuild exampleStorage exMulti [⟨2, "b"⟩] emptyWorld =
        (.returned true, ⟨some [], 0, [0], 0, []⟩) ∧
      p_execute assertBuild exampleStorage exMulti
          (localRows exampleStorage exMulti [⟨2, "b"⟩]) emptyWorld =
        (.assertFailed, ⟨some [], 0, [], 0, []⟩) := by
  decide

/-! ### C4 -/

/-- C4: for a row that passes the locality filter, on a persistent target with a
primary-key index, the iteration makes exactly two storage calls: the lookup, followed by
`insertTuple` when the lookup gave the null tuple and by `updateTupleWithSpecificIndexes`
on the resident row when it gave one; so exactly one mutator is called, the insert exactly
when the row is absent and the update exactly when it is present.  When the update reports
success the iteration goes on with `modifiedTuples` incremented (`++` on the 32-bit `int`),
whatever the resident row is, the candidate itself included. -/
theorem C4_exactly_one_of_insert_and_update {Tbl Tuple Val Idx : Type} (b : Build)
    (c : Collaborators Tbl Tuple Val Idx) (ex : UpsertExecutor) (tb : Tuple)
    (s : ExecState Tbl Tuple Idx) (t : Tbl) (ht : s.targetTable = some t)
    (hpk : c.primaryKeyIndex t = true) (hp : passesLocalityFilter c ex tb = true) :
    (c.lookupTuple t tb = none →
        (loopBody b c ex tb s).state.calls =
          s.calls ++ [.lookupTuple tb, .insertTuple tb]) ∧
      (∀ e, c.lookupTuple t tb = some e →
        (loopBody b c ex tb s).state.calls =
            s.calls ++ [.lookupTuple tb,
              .updateTupleWithSpecificIndexes e tb (c.allIndexes t)] ∧
          ((c.updateTupleWithSpecificIndexes t e tb (c.allIndexes t)).1 = true →
            ∃ s1, loopBody b c ex tb s = .next s1 ∧
              s1.modifiedTuples = wrapInt32 (s.modifiedTuples + 1) ∧
              (-2147483648 ≤ s.modifiedTuples → s.modifiedTuples < 2147483647 →
                s1.modifiedTuples = s.modifiedTuples + 1))) ∧
      (((loopBody b c ex tb s).state.calls.drop s.calls.length).countP
          Call.isMutation = 1) ∧
      ((∃ x, Call.insertTuple x ∈ (loopBody b c ex tb s).state.calls.drop s.calls.length) ↔
        c.lookupTuple t tb = none) ∧
      ((∃ e x i, Call.updateTupleWithSpecificIndexes e x i ∈
          (loopBody b c ex tb s).state.calls.drop s.calls.length) ↔
        ∃ e, c.lookupTuple t tb = some e) := by
  rw [loopBody_of_passes b c ex tb s hp]
  unfold upsertTuple
  simp only [ht, hpk, Bool.true_eq_false, false_and, if_false]
  cases hl : c.lookupTuple t tb with
  | none =>
    simp only
    cases hi : (c.insertTuple t tb).1 <;>
      simp [Step.state, Call.isMutation, List.countP_cons]
  | some e =>
    simp only
    cases hu : (c.updateTupleWithSpecificIndexes t e tb (c.allIndexes t)).1
    · simp [Step.state, Call.isMutation, List.countP_cons, hu]
    · simp only [Step.state, List.drop_left, Bool.true_eq_false, if_false]
      refine ⟨fun h => Option.noConfusion h, ?_, by simp [Call.isMutation, List.countP_cons],
        by simp, by simp⟩
      intro e1 he1
      injection he1 with he1
      subst he1
      refine ⟨rfl, fun _ => ⟨_, rfl, rfl, ?_⟩⟩
      intro h0 h1
      exact wrapInt32_of_range _ (by omega) (by omega)

/-- C4 witness: the candidate `(1, old)` against the example table already holding
`(1, old)`: the lookup finds the resident row, the update is called and the count goes
from 0 to 1. -/
theorem C4_exactly_one_of_insert_and_update_witness :
    exampleStorage.primaryKeyIndex [(⟨1, "old"⟩ : Row)] = true ∧
      passesLocalityFilter exampleStorage exSingle ⟨1, "old"⟩ = true ∧
      ∃ s1, loopBody assertBuild exampleStorage exSingle ⟨1, "old"⟩
            ⟨some [⟨1, "old"⟩], 0, [], 0, []⟩ = .next s1 ∧
          s1.modifiedTuples = wrapInt32 (0 + 1) ∧
          (-2147483648 ≤ (0 : Int) → (0 : Int) < 2147483647 →
            s1.modifiedTuples = 0 + 1) :=
  ⟨rfl, by decide,
    ((C4_exactly_one_of_insert_and_update assertBuild exampleStorage exSingle ⟨1, "old"⟩
      ⟨some [⟨1, "old"⟩], 0, [], 0, []⟩ [⟨1, "old"⟩] rfl rfl (by decide)).2.1
        ⟨1, "old"⟩ (by decide)).2 (by decide)⟩

/-! ### C5 -/

theorem mapGet_insert {Tuple K : Type} [DecidableEq K] (pk : Tuple → K) (t : List Tuple)
    (r : Tuple) (habsent : mapGet pk t (pk r) = none) (k : K) :
    mapGet pk (t ++ [r]) k = specSetRow pk (mapGet pk t) r k := by
  simp only [mapGet, specSetRow] at habsent ⊢
  rw [List.find?_append]
  by_cases hk : k = pk r
  · subst hk
    rw [habsent, if_pos rfl]
    simp
  · rw [if_neg hk]
    have h1 : List.find? (fun x => decide (pk x = k)) [r] = none := by
      rw [List.find?_cons_of_neg]
      · rfl
      · simpa using fun h => hk h.symm
    rw [h1]
    cases List.find? (fun x => decide (pk x = k)) t <;> rfl

theorem mapGet_update {Tuple K : Type} [DecidableEq K] (pk : Tuple → K) (t : List Tuple)
    (e r : Tuple) (hpresent : mapGet pk t (pk r) = some e) (k : K) :
    mapGet pk (t.map (fun x => if pk x = pk e then r else x)) k =
      specSetRow pk (mapGet pk t) r k := by
  have hke : pk e = pk r := by
    have := List.find?_some hpresent
    simpa using this
  have hcomp : ((fun x => decide (pk x = k)) ∘ fun x => if pk x = pk e then r else x) =
      fun x => decide (pk x = k) := by
    funext x
    by_cases hx : pk x = pk e
    · simp [Function.comp, hx, hke]
    · simp [Function.comp, hx]
  simp only [mapGet, specSetRow] at hpresent ⊢
  rw [List.find?_map, hcomp]
  by_cases hk : k = pk r
  · subst hk
    rw [hpresent, if_pos rfl]
    simp
  · rw [if_neg hk]
    cases hf : List.find? (fun x => decide (pk x = k)) t with
    | none => rfl
    | some x =>
      have hx : pk x = k := by
        have := List.find?_some hf
        simpa using this
      have hne : ¬ pk x = pk e := by
        rw [hx, hke]
        exact hk
      simp [hne]

theorem specUpsert_of_not_mem {Tuple K : Type} [DecidableEq K] (pk : Tuple → K)
    (rows : List Tuple) :
    ∀ (m : K → Option Tuple) (k : K), (∀ r ∈ rows, pk r ≠ k) →
      specUpsert pk m rows k = m k := by
  induction rows with
  | nil =>
    intro m k _
    rfl
  | cons r rest ih =>
    intro m k h
    unfold specUpsert
    rw [List.foldl_cons]
    have h1 := ih (specSetRow pk m r) k (fun x hx => h x (List.mem_cons_of_mem r hx))
    unfold specUpsert at h1
    rw [h1]
    unfold specSetRow
    rw [if_neg (fun hk => h r (List.mem_cons_self r rest) hk.symm)]

theorem specUpsert_last {Tuple K : Type} [DecidableEq K] (pk : Tuple → K)
    (pre : List Tuple) (r : Tuple) (post : List Tuple) (hpost : ∀ x ∈ post, pk x ≠ pk r)
    (m : K → Option Tuple) : specUpsert pk m (pre ++ r :: post) (pk r) = some r := by
  unfold specUpsert
  rw [List.foldl_append, List.foldl_cons]
  have h1 := specUpsert_of_not_mem pk post
    (specSetRow pk (List.foldl (specSetRow pk) m pre) r) (pk r) hpost
  unfold specUpsert at h1
  rw [h1]
  unfold specSetRow
  rw [if_pos rfl]

theorem upsertLoop_mapStorage {Tuple K Val : Type} [DecidableEq K] (b : Build)
    (pk : Tuple → K) (getNValue : Tuple → Int → Val) (isLocalSite : Val → Bool)
    (partitionColumn : Int) (outputAccepts : List Int → Int → Bool) (ex : UpsertExecutor)
    (rows : List Tuple) :
    ∀ (s s1 : ExecState (List Tuple) Tuple Unit) (t : List Tuple),
      s.targetTable = some t →
      upsertLoop b (mapStorage pk getNValue isLocalSite partitionColumn outputAccepts)
        ex rows s = .next s1 →
      ∃ t1, s1.targetTable = some t1 ∧
        mapGet pk t1 = specUpsert pk (mapGet pk t)
          (localRows (mapStorage pk getNValue isLocalSite partitionColumn outputAccepts)
            ex rows) := by
  induction rows with
  | nil =>
    intro s s1 t ht h
    rw [upsertLoop_nil] at h
    injection h with h
    subst h
    exact ⟨t, ht, rfl⟩
  | cons tb rest ih =>
    intro s s1 t ht h
    rw [upsertLoop_cons] at h
    rw [localRows_cons]
    by_cases hp : passesLocalityFilter
        (mapStorage pk getNValue isLocalSite partitionColumn outputAccepts) ex tb = true
    · rw [loopBody_of_passes b _ ex tb s hp] at h
      rw [if_pos hp]
      unfold upsertTuple at h
      simp only [ht] at h
      have hpk : (mapStorage pk getNValue isLocalSite partitionColumn
          outputAccepts).primaryKeyIndex t = true := rfl
      simp only [hpk, Bool.true_eq_false, false_and, if_false] at h
      cases hl : (mapStorage pk getNValue isLocalSite partitionColumn
          outputAccepts).lookupTuple t tb with
      | none =>
        rw [hl] at h
        simp only [mapStorage, Bool.true_eq_false, if_false] at h
        obtain ⟨t1, h1, h2⟩ := ih _ s1 (t ++ [tb]) rfl h
        refine ⟨t1, h1, ?_⟩
        rw [h2]
        unfold specUpsert
        rw [List.foldl_cons]
        congr 1
        funext k
        exact mapGet_insert pk t tb hl k
      | some e =>
        rw [hl] at h
        simp only [mapStorage, Bool.true_eq_false, if_false] at h
        obtain ⟨t1, h1, h2⟩ := ih _ s1 _ rfl h
        refine ⟨t1, h1, ?_⟩
        rw [h2]
        unfold specUpsert
        rw [List.foldl_cons]
        congr 1
        funext k
        exact mapGet_update pk t e tb hl k
    · have hp1 : passesLocalityFilter
          (mapStorage pk getNValue isLocalSite partitionColumn outputAccepts) ex tb
          = false := by
        cases hq : passesLocalityFilter
          (mapStorage pk getNValue isLocalSite partitionColumn outputAccepts) ex tb
        · rfl
        · exact absurd hq hp
      rw [loopBody_of_not_passes b _ ex tb s hp1] at h
      rw [if_neg hp]
      by_cases hm : ex.m_multiPartition = false
      · rw [if_pos hm] at h
        exact Step.noConfusion h
      · rw [if_neg hm] at h
        exact ih s s1 t ht h

/-- C5: on the map model of the target table (insert of an absent key and update of a
present key succeed), whenever `p_execute` returns true the final table, read as a map from
primary-key value to row, is `specSetRow` folded in input order over the rows of the batch
that pass the locality filter.  Hence the last candidate of each key among those rows is
the row stored under that key, every key that is not the key of such a row (in particular
every key not in the batch) keeps its row, and the rows that pass are the whole batch when
the table is unpartitioned or the scope is single-partition, so that there the last
candidate of each key of the batch is the row stored under it.  For the batch
`[(1, x), (4, y)]` against the table holding `(1, old)`, in every build, the count is 2 and
the table ends as `(1, x), (4, y)`: one update and one insert. -/
theorem C5_final_table_is_fold_of_set_row {Tuple K Val : Type} [DecidableEq K] (b : Build)
    (pk : Tuple → K) (getNValue : Tuple → Int → Val) (isLocalSite : Val → Bool)
    (partitionColumn : Int) (outputAccepts : List Int → Int → Bool)
    (c : Collaborators (List Tuple) Tuple Val Unit)
    (hc : c = mapStorage pk getNValue isLocalSite partitionColumn outputAccepts)
    (ex : UpsertExecutor) (rows t0 : List Tuple) (out : List Int) (tm : Int)
    (s : ExecState (List Tuple) Tuple Unit)
    (h : p_execute b c ex rows ⟨.persistent t0, out, tm⟩ = (.returned true, s)) :
    (∃ t1, s.targetTable = some t1 ∧
      (∀ k, mapGet pk t1 k = specUpsert pk (mapGet pk t0) (localRows c ex rows) k) ∧
      (∀ pre r post, localRows c ex rows = pre ++ r :: post →
        (∀ x ∈ post, pk x ≠ pk r) → mapGet pk t1 (pk r) = some r) ∧
      (∀ k, (∀ r ∈ localRows c ex rows, pk r ≠ k) → mapGet pk t1 k = mapGet pk t0 k) ∧
      (∀ k, (∀ r ∈ rows, pk r ≠ k) → mapGet pk t1 k = mapGet pk t0 k) ∧
      (ex.m_partitionColumn = -1 ∨ ex.m_multiPartition = false →
        ∀ pre r post, rows = pre ++ r :: post →
          (∀ x ∈ post, pk x ≠ pk r) → mapGet pk t1 (pk r) = some r)) ∧
      (ex.m_partitionColumn = -1 ∨ ex.m_multiPartition = false →
        localRows c ex rows = rows) ∧
      (∀ b1 : Build,
        p_execute b1 exampleStorage exUnpartitioned [⟨1, "x"⟩, ⟨4, "y"⟩]
            ⟨.persistent [⟨1, "old"⟩], [], 0⟩ =
          (.returned true,
            ⟨some [⟨1, "x"⟩, ⟨4, "y"⟩], 2, [2], 2,
              [.lookupTuple ⟨1, "x"⟩,
                .updateTupleWithSpecificIndexes ⟨1, "old"⟩ ⟨1, "x"⟩ (),
                .lookupTuple ⟨4, "y"⟩, .insertTuple ⟨4, "y"⟩]⟩)) := by
  obtain ⟨s1, hl, -, hs⟩ := p_execute_success b c ex rows _ s h
  obtain ⟨-, -, -, -, r5⟩ := upsertLoop_next b c ex rows _ s1 hl
  subst hc
  obtain ⟨t1, h1, h2⟩ := upsertLoop_mapStorage b pk getNValue isLocalSite partitionColumn
    outputAccepts ex rows _ s1 t0 rfl hl
  have hall : ex.m_partitionColumn = -1 ∨ ex.m_multiPartition = false →
      localRows (mapStorage pk getNValue isLocalSite partitionColumn outputAccepts)
        ex rows = rows := by
    rintro (h0 | h0)
    · exact localRows_of_unpartitioned _ ex rows h0
    · exact r5 h0
  refine ⟨⟨t1, ?_, ?_, ?_, ?_, ?_, ?_⟩, hall, ?_⟩
  · rw [hs]
    exact h1
  · intro k
    rw [h2]
  · intro pre r post hdec hpost
    rw [h2, hdec]
    exact specUpsert_last pk pre r post hpost _
  · intro k hk
    rw [h2]
    exact specUpsert_of_not_mem pk _ _ k hk
  · intro k hk
    rw [h2]
    apply specUpsert_of_not_mem pk _ _ k
    intro r hr
    exact hk r (List.mem_of_mem_filter hr)
  · intro h0 pre r post hdec hpost
    rw [h2, hall h0, hdec]
    exact specUpsert_last pk pre r post hpost _
  · intro b1
    rcases b1 with ⟨_ | _, _ | _⟩ <;> decide

/-- C5 witness: the batch `[(1, x), (4, y)]` against the example table holding `(1, old)`. -/
theorem C5_final_table_is_fold_of_set_row_witness :
    p_execute assertBuild exampleStorage exUnpartitioned [⟨1, "x"⟩, ⟨4, "y"⟩]
        ⟨.persistent [⟨1, "old"⟩], [], 0⟩ =
        (.returned true,
          ⟨some [⟨1, "x"⟩, ⟨4, "y"⟩], 2, [2], 2,
            [.lookupTuple ⟨1, "x"⟩,
              .updateTupleWithSpecificIndexes ⟨1, "old"⟩ ⟨1, "x"⟩ (),
              .lookupTuple ⟨4, "y"⟩, .insertTuple ⟨4, "y"⟩]⟩) ∧
      ∃ t1 : List Row, some [(⟨1, "x"⟩ : Row), ⟨4, "y"⟩] = some t1 ∧
        ∀ k, mapGet Row.id t1 k =
          specUpsert Row.id (mapGet Row.id [⟨1, "old"⟩])
            (localRows exampleStorage exUnpartitioned [⟨1, "x"⟩, ⟨4, "y"⟩]) k := by
  refine ⟨by decide, ?_⟩
  obtain ⟨⟨t1, h1, h2, -⟩, -⟩ :=
    C5_final_table_is_fold_of_set_row assertBuild Row.id Row.getNValue oddIsLocal 0
      (fun _ _ => true) exampleStorage rfl exUnpartitioned [⟨1, "x"⟩, ⟨4, "y"⟩]
      [⟨1, "old"⟩] [] 0
      ⟨some [⟨1, "x"⟩, ⟨4, "y"⟩], 2, [2], 2,
        [.lookupTuple ⟨1, "x"⟩,
          .updateTupleWithSpecificIndexes ⟨1, "old"⟩ ⟨1, "x"⟩ (),
          .lookupTuple ⟨4, "y"⟩, .insertTuple ⟨4, "y"⟩]⟩ (by decide)
  exact ⟨t1, h1, h2⟩

/-! ### C6 -/

theorem upsertLoop_mapStorage_all_inserts {Tuple K Val : Type} [DecidableEq K] (b : Build)
    (pk : Tuple → K) (getNValue : Tuple → Int → Val) (isLocalSite : Val → Bool)
    (partitionColumn : Int) (outputAccepts : List Int → Int → Bool) (ex : UpsertExecutor)
    (hunpart : ex.m_partitionColumn = -1) (rows : List Tuple) :
    ∀ (s : ExecState (List Tuple) Tuple Unit) (t : List Tuple) (m : Int),
      s.targetTable = some t → s.modifiedTuples = wrapInt32 m →
      (rows.map pk).Nodup → (∀ r ∈ rows, mapGet pk t (pk r) = none) →
      upsertLoop b (mapStorage pk getNValue isLocalSite partitionColumn outputAccepts)
          ex rows s =
        .next { s with
                targetTable := some (t ++ rows)
                modifiedTuples := wrapInt32 (m + (rows.length : Int))
                calls := s.calls ++ lookupInsertCalls rows } := by
  induction rows with
  | nil =>
    intro s t m ht hm _ _
    rw [upsertLoop_nil]
    congr 1
    cases s
    simp only [List.append_nil, lookupInsertCalls, List.length_nil, Nat.cast_zero,
      add_zero] at ht hm ⊢
    rw [ht, hm]
  | cons tb rest ih =>
    intro s t m ht hm hnd habs
    have hp : passesLocalityFilter
        (mapStorage pk getNValue isLocalSite partitionColumn outputAccepts) ex tb
        = true := by
      simp [passesLocalityFilter, hunpart]
    have hnone : mapGet pk t (pk tb) = none := habs tb (List.mem_cons_self tb rest)
    rw [List.map_cons, List.nodup_cons] at hnd
    rw [upsertLoop_cons, loopBody_of_passes b _ ex tb s hp]
    unfold upsertTuple
    simp only [ht]
    have hpk : (mapStorage pk getNValue isLocalSite partitionColumn
        outputAccepts).primaryKeyIndex t = true := rfl
    have hl : (mapStorage pk getNValue isLocalSite partitionColumn
        outputAccepts).lookupTuple t tb = none := hnone
    have hins : (mapStorage pk getNValue isLocalSite partitionColumn
        outputAccepts).insertTuple t tb = (true, t ++ [tb]) := rfl
    simp only [hpk, hl, hins, Bool.true_eq_false, false_and, if_false]
    have habs2 : ∀ r ∈ rest, mapGet pk (t ++ [tb]) (pk r) = none := by
      intro r hr
      rw [mapGet_insert pk t tb hnone]
      unfold specSetRow
      have hne : ¬ pk r = pk tb := by
        intro heq
        apply hnd.1
        rw [← heq]
        exact List.mem_map_of_mem pk hr
      rw [if_neg hne]
      exact habs r (List.mem_cons_of_mem tb hr)
    have hm2 : wrapInt32 (s.modifiedTuples + 1) = wrapInt32 (m + 1) := by
      rw [hm, wrapInt32_wrapInt32_add]
    have key := ih
      { targetTable := some (t ++ [tb])
        modifiedTuples := wrapInt32 (s.modifiedTuples + 1)
        outputTable := s.outputTable
        m_tuplesModified := s.m_tuplesModified
        calls := s.calls ++ [Call.lookupTuple tb, Call.insertTuple tb] }
      (t ++ [tb]) (m + 1) rfl hm2 hnd.2 habs2
    rw [key]
    congr 1
    simp only [List.append_assoc, List.singleton_append, List.cons_append, List.nil_append,
      lookupInsertCalls, List.length_cons, Nat.cast_add, Nat.cast_one]
    congr 2
    ring

theorem lookupInsertCalls_countP {Tuple Idx : Type} (rows : List Tuple) :
    (lookupInsertCalls rows : List (Call Tuple Idx)).countP Call.isMutation = rows.length ∧
      ∀ e x i, Call.updateTupleWithSpecificIndexes e x i ∉
        (lookupInsertCalls rows : List (Call Tuple Idx)) := by
  induction rows with
  | nil => simp [lookupInsertCalls]
  | cons r rest ih =>
    refine ⟨?_, ?_⟩
    · simp [lookupInsertCalls, List.countP_cons, Call.isMutation, ih.1]
    · intro e x i
      simp [lookupInsertCalls, ih.2 e x i]

/-- C6 (amended): on the map model of an unpartitioned target table, for a non-empty batch
of `n < 2^31` rows with pairwise distinct primary keys none of which is in the table, and
an output table that accepts the count row, `p_execute` returns true in every build; the
count row holds `n`, the final table is the old table followed by the `n` rows of the
batch, and the storage calls are one lookup and one insert per row, with no update.  Three
rows with ids 1, 2, 3 against the empty table give three inserts and count 3. -/
theorem C6_distinct_absent_keys_are_all_inserted {Tuple K Val : Type} [DecidableEq K]
    (b : Build) (pk : Tuple → K) (getNValue : Tuple → Int → Val)
    (isLocalSite : Val → Bool) (partitionColumn : Int)
    (outputAccepts : List Int → Int → Bool)
    (c : Collaborators (List Tuple) Tuple Val Unit)
    (hc : c = mapStorage pk getNValue isLocalSite partitionColumn outputAccepts)
    (ex : UpsertExecutor) (rows t0 : List Tuple) (out : List Int) (tm : Int)
    (hin : ex.m_inputTable = true) (hunpart : ex.m_partitionColumn = -1)
    (hne : rows ≠ []) (hfit : rows.length < 2147483648)
    (hdistinct : (rows.map pk).Nodup)
    (habsent : ∀ r ∈ rows, mapGet pk t0 (pk r) = none)
    (hacc : outputAccepts out (rows.length : Int) = true) :
    p_execute b c ex rows ⟨.persistent t0, out, tm⟩ =
        (.returned true,
          { targetTable := some (t0 ++ rows)
            modifiedTuples := (rows.length : Int)
            outputTable := out ++ [(rows.length : Int)]
            m_tuplesModified := wrapInt64 (tm + (rows.length : Int))
            calls := lookupInsertCalls rows }) ∧
      (t0 ++ rows).length = t0.length + rows.length ∧
      (lookupInsertCalls rows : List (Call Tuple Unit)).countP Call.isMutation =
        rows.length ∧
      (∀ e x i, Call.updateTupleWithSpecificIndexes e x i ∉
        (lookupInsertCalls rows : List (Call Tuple Unit))) ∧
      (∀ b1 : Build,
        p_execute b1 exampleStorage exUnpartitioned [⟨1, "a"⟩, ⟨2, "b"⟩, ⟨3, "c"⟩]
            emptyWorld =
          (.returned true,
            ⟨some [⟨1, "a"⟩, ⟨2, "b"⟩, ⟨3, "c"⟩], 3, [3], 3,
              [.lookupTuple ⟨1, "a"⟩, .insertTuple ⟨1, "a"⟩, .lookupTuple ⟨2, "b"⟩,
                .insertTuple ⟨2, "b"⟩, .lookupTuple ⟨3, "c"⟩, .insertTuple ⟨3, "c"⟩]⟩)) := by
  subst hc
  refine ⟨?_, List.length_append _ _, (lookupInsertCalls_countP rows).1,
    (lookupInsertCalls_countP rows).2, ?_⟩
  · rw [p_execute_eq_of_loop b _ ex rows _ t0 rfl hin (Or.inl hne)]
    rw [upsertLoop_mapStorage_all_inserts b pk getNValue isLocalSite partitionColumn
      outputAccepts ex hunpart rows _ t0 0 rfl (initialState_modifiedTuples _) hdistinct
      habsent]
    have hw : wrapInt32 (0 + (rows.length : Int)) = (rows.length : Int) := by
      rw [zero_add]
      exact wrapInt32_of_range _ (by omega) (by omega)
    simp only [hw, initialState, mapStorage, hacc, Bool.true_eq_false, if_false,
      List.nil_append]
  · intro b1
    rcases b1 with ⟨_ | _, _ | _⟩ <;> decide

/-- C6 witness: the three rows with ids 1, 2, 3 against the empty example table. -/
theorem C6_distinct_absent_keys_are_all_inserted_witness :
    ([(⟨1, "a"⟩ : Row), ⟨2, "b"⟩, ⟨3, "c"⟩].map Row.id).Nodup ∧
      (∀ r ∈ [(⟨1, "a"⟩ : Row), ⟨2, "b"⟩, ⟨3, "c"⟩], mapGet Row.id [] (Row.id r) = none) ∧
      p_execute assertBuild exampleStorage exUnpartitioned [⟨1, "a"⟩, ⟨2, "b"⟩, ⟨3, "c"⟩]
          ⟨.persistent [], [], 0⟩ =
        (.returned true,
          { targetTable := some ([] ++ [⟨1, "a"⟩, ⟨2, "b"⟩, ⟨3, "c"⟩])
            modifiedTuples := (([(⟨1, "a"⟩ : Row), ⟨2, "b"⟩, ⟨3, "c"⟩].length : Nat) : Int)
            outputTable := [] ++ [(([(⟨1, "a"⟩ : Row), ⟨2, "b"⟩, ⟨3, "c"⟩].length : Nat) : Int)]
            m_tuplesModified :=
              wrapInt64 (0 + (([(⟨1, "a"⟩ : Row), ⟨2, "b"⟩, ⟨3, "c"⟩].length : Nat) : Int))
            calls := lookupInsertCalls [⟨1, "a"⟩, ⟨2, "b"⟩, ⟨3, "c"⟩] }) :=
  ⟨by decide, by decide,
    (C6_distinct_absent_keys_are_all_inserted assertBuild Row.id Row.getNValue oddIsLocal 0
      (fun _ _ => true) exampleStorage rfl exUnpartitioned [⟨1, "a"⟩, ⟨2, "b"⟩, ⟨3, "c"⟩]
      [] [] 0 rfl rfl (by decide) (by decide) (by decide) (by decide) rfl).1⟩

/-- C6 counterexample: the batch of size 0 (its rows have, vacuously, distinct keys absent
from the table) against the empty unpartitioned example table.  With assertions enabled
`p_execute` fails the assertion of line 89, and with `DEBUG` it returns false at line 86;
no count row is written. -/
theorem C6_counterexample :
    exUnpartitioned.m_partitionColumn = -1 ∧
      (([] : List Row).map Row.id).Nodup ∧
      p_execute assertBuild exampleStorage exUnpartitioned [] emptyWorld =
        (.assertFailed, ⟨some [], 0, [], 0, []⟩) ∧
      p_execute debugBuild exampleStorage exUnpartitioned [] emptyWorld =
        (.returned false, ⟨some [], 0, [], 0, []⟩) := by
  decide

/-! ### C7 -/

/-- C7: `p_init` on an upsert plan node with one temp input table whose target is a streamed
table (the cast of line 53 gives NULL) does not fail with a configuration error: the
condition is only logged (line 55), no `false` is returned, and line 61 dereferences the
NULL `persistentTarget`.  This holds in every build; and no plan node whatever makes
`p_init` return false. -/
theorem C7_p_init_streamed_target_dereferences_null {Tbl Tuple Val Idx : Type} (b : Build)
    (c : Collaborators Tbl Tuple Val Idx) (isMultiPartition : Bool) :
    p_init b c
        { isUpsertPlanNode := true
          targetTable := some .streamed
          inputTables := [true]
          isMultiPartition := isMultiPartition } = .nullDeref ∧
      ∀ (node : AbstractPlanNode Tbl) (ex : UpsertExecutor),
        p_init b c node ≠ .returned false ex := by
  refine ⟨?_, ?_⟩
  · rcases b with ⟨_ | _, _ | _⟩ <;> rfl
  · intro node ex h
    unfold p_init at h
    split at h
    · split at h <;> exact InitResult.noConfusion h
    · split at h
      · exact InitResult.noConfusion h
      · split at h
        · exact InitResult.noConfusion h
        · split at h
          · exact InitResult.noConfusion h
          · simp only at h
            split at h
            · exact InitResult.noConfusion h
            · split at h
              · exact InitResult.noConfusion h
              · split at h
                · exact InitResult.noConfusion h
                · injection h with h1 h2
                  exact Bool.noConfusion h1

/-! ### C8 -/

/-- C8 (amended): `p_init` does not look at the primary-key index.  For every persistent
target table, partitioned or not, with or without a primary-key index, an upsert plan node
with one temp input table makes `p_init` return true with the partition column of the
table and the scope flag of the node cached. -/
theorem C8_p_init_ignores_primary_key_index {Tbl Tuple Val Idx : Type} (b : Build)
    (c : Collaborators Tbl Tuple Val Idx) (t : Tbl) (isMultiPartition : Bool) :
    p_init b c
        { isUpsertPlanNode := true
          targetTable := some (.persistent t)
          inputTables := [true]
          isMultiPartition := isMultiPartition } =
      .returned true
        { m_inputTable := true
          m_partitionColumn := c.partitionColumn t
          m_multiPartition := isMultiPartition } := by
  rcases b with ⟨_ | _, _ | _⟩ <;> rfl

/-- C8 counterexample: the example table, partitioned on column 0, stripped of its
primary-key index.  `p_init` returns true. -/
theorem C8_counterexample :
    (withoutPrimaryKey exampleStorage).partitionColumn [] ≠ -1 ∧
      (withoutPrimaryKey exampleStorage).primaryKeyIndex [] = false ∧
      p_init assertBuild (withoutPrimaryKey exampleStorage)
          { isUpsertPlanNode := true
            targetTable := some (.persistent [])
            inputTables := [true]
            isMultiPartition := false } =
        .returned true exSingle := by
  decide

/-! ### C9 -/

/-- C9 (amended): the accumulator is a 32-bit `int` that is widened to BIGINT only when the
count row is built.  Whenever `p_execute` returns true after `k` insert or update calls,
the value written to the result row (and added to the engine counter) is the 32-bit image
of `k`; it is exactly `k` for `0 <= k < 2^31`. -/
theorem C9_count_is_exact_below_two_pow_31 {Tbl Tuple Val Idx : Type} (b : Build)
    (c : Collaborators Tbl Tuple Val Idx) (ex : UpsertExecutor) (rows : List Tuple)
    (w : World Tbl) (s : ExecState Tbl Tuple Idx)
    (h : p_execute b c ex rows w = (.returned true, s)) :
    s.outputTable =
        w.outputTable ++ [wrapInt32 ((s.calls.countP Call.isMutation : Nat) : Int)] ∧
      s.m_tuplesModified =
        wrapInt64
          (w.m_tuplesModified + wrapInt32 ((s.calls.countP Call.isMutation : Nat) : Int)) ∧
      (s.calls.countP Call.isMutation < 2147483648 →
        s.outputTable =
          w.outputTable ++ [((s.calls.countP Call.isMutation : Nat) : Int)]) := by
  obtain ⟨r1, -, r3, r4, -⟩ := p_execute_success_count b c ex rows w s h
  rw [r4]
  refine ⟨r1, r3, fun hfit => ?_⟩
  rw [r1, wrapInt32_of_range _ (by omega) (by omega)]

/-- C9 witness: one update and one insert on the example table; the count row holds 2. -/
theorem C9_count_is_exact_below_two_pow_31_witness :
    p_execute releaseBuild exampleStorage exSingle [⟨1, "x"⟩, ⟨5, "y"⟩]
        ⟨.persistent [⟨1, "old"⟩], [], 10⟩ =
        (.returned true,
          ⟨some [⟨1, "x"⟩, ⟨5, "y"⟩], 2, [2], 12,
            [.lookupTuple ⟨1, "x"⟩,
              .updateTupleWithSpecificIndexes ⟨1, "old"⟩ ⟨1, "x"⟩ (),
              .lookupTuple ⟨5, "y"⟩, .insertTuple ⟨5, "y"⟩]⟩) ∧
      ([2] : List Int) = [] ++ [wrapInt32 ((List.countP Call.isMutation
        [Call.lookupTuple (⟨1, "x"⟩ : Row),
          Call.updateTupleWithSpecificIndexes ⟨1, "old"⟩ ⟨1, "x"⟩ (),
          Call.lookupTuple ⟨5, "y"⟩, Call.insertTuple ⟨5, "y"⟩] : Nat) : Int)] :=
  ⟨by decide,
    (C9_count_is_exact_below_two_pow_31 releaseBuild exampleStorage exSingle
      [⟨1, "x"⟩, ⟨5, "y"⟩] ⟨.persistent [⟨1, "old"⟩], [], 10⟩
      ⟨some [⟨1, "x"⟩, ⟨5, "y"⟩], 2, [2], 12,
        [.lookupTuple ⟨1, "x"⟩,
          .updateTupleWithSpecificIndexes ⟨1, "old"⟩ ⟨1, "x"⟩ (),
          .lookupTuple ⟨5, "y"⟩, .insertTuple ⟨5, "y"⟩]⟩ (by decide)).1⟩

/-- C9 counterexample: 2^31 copies of the row `(7, z)`, all local, against the example
table holding `(7, old)`, in single-partition scope.  `p_execute` returns true after
k = 2^31 update calls, and the value written to the result row is -2^31. -/
theorem C9_counterexample :
    (p_execute releaseBuild exampleStorage exSingle
        (List.replicate 2147483648 (⟨7, "z"⟩ : Row))
        ⟨.persistent [⟨7, "old"⟩], [], 0⟩).1 = .returned true ∧
      (p_execute releaseBuild exampleStorage exSingle
        (List.replicate 2147483648 (⟨7, "z"⟩ : Row))
        ⟨.persistent [⟨7, "old"⟩], [], 0⟩).2.calls.countP Call.isMutation = 2147483648 ∧
      (p_execute releaseBuild exampleStorage exSingle
        (List.replicate 2147483648 (⟨7, "z"⟩ : Row))
        ⟨.persistent [⟨7, "old"⟩], [], 0⟩).2.outputTable = [-2147483648] := by
  have hlen : (List.replicate 2147483648 (⟨7, "z"⟩ : Row)).length = 2147483648 :=
    List.length_replicate _ _
  have hall : ∀ x ∈ List.replicate 2147483648 (⟨7, "z"⟩ : Row), x = ⟨7, "z"⟩ :=
    fun x hx => List.eq_of_mem_replicate hx
  generalize List.replicate 2147483648 (⟨7, "z"⟩ : Row) = rows at hlen hall ⊢
  have hne : rows ≠ [] := by
    intro h0
    rw [h0] at hlen
    exact absurd hlen (by decide)
  have hpass : ∀ x ∈ rows, passesLocalityFilter exampleStorage exSingle x = true := by
    intro x hx
    rw [hall x hx]
    decide
  have hlocal : localRows exampleStorage exSingle rows = rows :=
    List.filter_eq_self.2 hpass
  obtain ⟨s, hs⟩ := p_execute_of_never_fails releaseBuild exampleStorage exSingle
    rows ⟨.persistent [⟨7, "old"⟩], [], 0⟩ [⟨7, "old"⟩] rfl rfl hne (fun _ => rfl)
    (fun _ _ => rfl) (fun _ _ _ _ => rfl) (fun _ _ => rfl)
    (fun tb htb hp => by rw [hpass tb htb] at hp; exact Bool.noConfusion hp)
  obtain ⟨r1, -, -, r4, -⟩ := p_execute_success_count _ _ _ _ _ _ hs
  rw [hs]
  refine ⟨rfl, ?_, ?_⟩
  · rw [r4, hlocal, hlen]
  · rw [r1, hlocal, hlen]
    decide

/-! ### C10 -/

/-- C10 (amended): `p_execute` on the empty input batch, for a persistent target, never
calls the storage layer and leaves the target table as it was.  It returns false when
`DEBUG` is defined (lines 83-87), fails the assertion of line 89 when assertions are
enabled, and only in a build with `NDEBUG` and without `DEBUG` goes on to write the count
row 0: it then returns true if the output table accepts the row and false otherwise. -/
theorem C10_empty_batch {Tbl Tuple Val Idx : Type} (b : Build)
    (c : Collaborators Tbl Tuple Val Idx) (m_partitionColumn : Int)
    (m_multiPartition : Bool) (t : Tbl) (out : List Int) (tm : Int) :
    p_execute b c
        { m_inputTable := true
          m_partitionColumn := m_partitionColumn
          m_multiPartition := m_multiPartition }
        [] { targetTable := .persistent t, outputTable := out, m_tuplesModified := tm } =
      if b.DEBUG = true then
        (.returned false, ⟨some t, 0, out, tm, []⟩)
      else if b.NDEBUG = false then
        (.assertFailed, ⟨some t, 0, out, tm, []⟩)
      else if c.outputAccepts out 0 = true then
        (.returned true, ⟨some t, 0, out ++ [0], wrapInt64 (tm + 0), []⟩)
      else
        (.returned false, ⟨some t, 0, out, tm, []⟩) := by
  cases hacc : c.outputAccepts out 0 <;> rcases b with ⟨_ | _, _ | _⟩ <;>
    simp [p_execute, initialState, Table.asPersistent, upsertLoop, outputInsertTuple,
      hacc]

/-- C10 counterexample: the empty batch against the example table holding `(1, old)`, in
single-partition scope.  With assertions enabled `p_execute` fails the assertion of line
89; with `DEBUG` it returns false.  No count row is written. -/
theorem C10_counterexample :
    p_execute assertBuild exampleStorage exSingle []
        ⟨.persistent [⟨1, "old"⟩], [], 0⟩ =
        (.assertFailed, ⟨some [⟨1, "old"⟩], 0, [], 0, []⟩) ∧
      p_execute debugBuild exampleStorage exSingle []
        ⟨.persistent [⟨1, "old"⟩], [], 0⟩ =
        (.returned false, ⟨some [⟨1, "old"⟩], 0, [], 0, []⟩) := by
  decide

/-! ### C11 -/

theorem upsertLoop_stop_at {Tbl Tuple Val Idx : Type} (b : Build)
    (c : Collaborators Tbl Tuple Val Idx) (ex : UpsertExecutor) (pre post : List Tuple)
    (r : Tuple) (s s1 s2 : ExecState Tbl Tuple Idx) (e : Exit Tbl Tuple)
    (hpre : upsertLoop b c ex pre s = .next s1)
    (hstop : loopBody b c ex r s1 = .stop e s2) :
    upsertLoop b c ex (pre ++ r :: post) s = .stop e s2 := by
  rw [upsertLoop_append, hpre]
  simp only
  rw [upsertLoop_cons, hstop]

theorem p_execute_stop_at {Tbl Tuple Val Idx : Type} (b : Build)
    (c : Collaborators Tbl Tuple Val Idx) (ex : UpsertExecutor) (pre post : List Tuple)
    (r : Tuple) (w : World Tbl) (t0 : Tbl) (s1 s2 : ExecState Tbl Tuple Idx)
    (e : Exit Tbl Tuple) (ht0 : w.targetTable = .persistent t0)
    (hin : ex.m_inputTable = true)
    (hpre : upsertLoop b c ex pre (initialState w) = .next s1)
    (hstop : loopBody b c ex r s1 = .stop e s2) :
    p_execute b c ex (pre ++ r :: post) w = (e, s2) := by
  have hne : pre ++ r :: post ≠ [] := by simp
  rw [p_execute_eq_of_loop b c ex _ w t0 ht0 hin (Or.inl hne),
    upsertLoop_stop_at b c ex pre post r _ s1 s2 e hpre hstop]

theorem upsertTuple_of_storage_failure {Tbl Tuple Val Idx : Type} (b : Build)
    (c : Collaborators Tbl Tuple Val Idx) (r : Tuple) (s : ExecState Tbl Tuple Idx)
    (t : Tbl) (ht : s.targetTable = some t)
    (hpk : c.primaryKeyIndex t = true ∨ b.NDEBUG = true)
    (hfail : (c.lookupTuple t r = none ∧ (c.insertTuple t r).1 = false) ∨
      (∃ e, c.lookupTuple t r = some e ∧
        (c.updateTupleWithSpecificIndexes t e r (c.allIndexes t)).1 = false)) :
    ∃ call t1, Call.isMutation call = true ∧
      upsertTuple b c r s =
        .stop (.returned false)
          { s with targetTable := some t1, calls := s.calls ++ [.lookupTuple r, call] } ∧
      ((c.lookupTuple t r = none ∧ call = .insertTuple r ∧ t1 = (c.insertTuple t r).2) ∨
        (∃ e, c.lookupTuple t r = some e ∧
          call = .updateTupleWithSpecificIndexes e r (c.allIndexes t) ∧
          t1 = (c.updateTupleWithSpecificIndexes t e r (c.allIndexes t)).2)) := by
  have hguard : ¬ (c.primaryKeyIndex t = false ∧ b.NDEBUG = false) := by
    rintro ⟨h1, h2⟩
    rcases hpk with h | h
    · rw [h] at h1
      exact Bool.noConfusion h1
    · rw [h] at h2
      exact Bool.noConfusion h2
  unfold upsertTuple
  simp only [ht]
  rw [if_neg hguard]
  rcases hfail with ⟨hl, hf⟩ | ⟨e, hl, hf⟩
  · refine ⟨.insertTuple r, (c.insertTuple t r).2, rfl, ?_, Or.inl ⟨hl, rfl, rfl⟩⟩
    simp only [hl, hf, if_true]
  · refine ⟨.updateTupleWithSpecificIndexes e r (c.allIndexes t),
      (c.updateTupleWithSpecificIndexes t e r (c.allIndexes t)).2, rfl, ?_,
      Or.inr ⟨e, hl, rfl, rfl⟩⟩
    simp only [hl, hf, if_true]

/-- C11: let the rows before `r` be processed without leaving the loop, `t` being the
target table after them, let `r` pass the locality filter, and let the storage call made
for `r` report failure (`insertTuple` when the lookup gives the null tuple,
`updateTupleWithSpecificIndexes` when it gives a resident row).  Then `p_execute` returns
false; the output table and the engine counter are as they were; the storage calls are
those of the rows before `r` followed by the lookup and the failing call for `r`, so no
call is made for a later row; and the result does not depend on the rows after `r`. -/
theorem C11_storage_failure_aborts_at_once {Tbl Tuple Val Idx : Type} (b : Build)
    (c : Collaborators Tbl Tuple Val Idx) (ex : UpsertExecutor) (pre post : List Tuple)
    (r : Tuple) (w : World Tbl) (t0 t : Tbl) (s1 : ExecState Tbl Tuple Idx)
    (ht0 : w.targetTable = .persistent t0) (hin : ex.m_inputTable = true)
    (hpre : upsertLoop b c ex pre (initialState w) = .next s1)
    (ht : s1.targetTable = some t)
    (hp : passesLocalityFilter c ex r = true)
    (hpk : c.primaryKeyIndex t = true ∨ b.NDEBUG = true)
    (hfail : (c.lookupTuple t r = none ∧ (c.insertTuple t r).1 = false) ∨
      (∃ e, c.lookupTuple t r = some e ∧
        (c.updateTupleWithSpecificIndexes t e r (c.allIndexes t)).1 = false)) :
    (p_execute b c ex (pre ++ r :: post) w).1 = .returned false ∧
      (p_execute b c ex (pre ++ r :: post) w).2.outputTable = w.outputTable ∧
      (p_execute b c ex (pre ++ r :: post) w).2.m_tuplesModified = w.m_tuplesModified ∧
      (∃ call, Call.isMutation call = true ∧
        (p_execute b c ex (pre ++ r :: post) w).2.calls =
          s1.calls ++ [.lookupTuple r, call]) ∧
      (∀ post2 : List Tuple,
        p_execute b c ex (pre ++ r :: post2) w = p_execute b c ex (pre ++ r :: post) w) := by
  obtain ⟨call, t1, hcall, hstep, -⟩ := upsertTuple_of_storage_failure b c r s1 t ht hpk hfail
  rw [← loopBody_of_passes b c ex r s1 hp] at hstep
  have hrun : ∀ post2 : List Tuple, p_execute b c ex (pre ++ r :: post2) w =
      (.returned false,
        { s1 with targetTable := some t1, calls := s1.calls ++ [.lookupTuple r, call] }) :=
    fun post2 => p_execute_stop_at b c ex pre post2 r w t0 s1 _ _ ht0 hin hpre hstep
  obtain ⟨k1, k2, -⟩ := upsertLoop_next b c ex pre _ s1 hpre
  rw [hrun post]
  refine ⟨rfl, k1, k2, ⟨call, hcall, rfl⟩, fun post2 => hrun post2⟩

/-- C11 witness: on a storage whose inserts report failure, the batch
`[(1, a), (3, c)]` against the empty example table stops at the first row. -/
theorem C11_storage_failure_aborts_at_once_witness :
    ((rejectingInserts exampleStorage).lookupTuple [] ⟨1, "a"⟩ = none ∧
        ((rejectingInserts exampleStorage).insertTuple [] ⟨1, "a"⟩).1 = false) ∧
      (p_execute assertBuild (rejectingInserts exampleStorage) exSingle
        ([] ++ ⟨1, "a"⟩ :: [⟨3, "c"⟩]) emptyWorld).1 = .returned false ∧
      (p_execute assertBuild (rejectingInserts exampleStorage) exSingle
        ([] ++ ⟨1, "a"⟩ :: [⟨3, "c"⟩]) emptyWorld).2.outputTable = emptyWorld.outputTable :=
  ⟨⟨rfl, rfl⟩,
    (C11_storage_failure_aborts_at_once assertBuild (rejectingInserts exampleStorage)
      exSingle [] [⟨3, "c"⟩] ⟨1, "a"⟩ emptyWorld [] [] (initialState emptyWorld) rfl rfl rfl
      rfl (by decide) (Or.inl rfl) (Or.inl ⟨rfl, rfl⟩)).1,
    (C11_storage_failure_aborts_at_once assertBuild (rejectingInserts exampleStorage)
      exSingle [] [⟨3, "c"⟩] ⟨1, "a"⟩ emptyWorld [] [] (initialState emptyWorld) rfl rfl rfl
      rfl (by decide) (Or.inl rfl) (Or.inl ⟨rfl, rfl⟩)).2.1⟩

/-! ### C12 -/

/-- C12: when the loop has processed every input row without leaving and the output table
does not accept the count row, `p_execute` returns false, the same exit as for a storage
insert failure; the output table holds no new row and the engine counter is as it was,
while the target table keeps what the rows did to it. -/
theorem C12_result_row_write_failure_fails {Tbl Tuple Val Idx : Type} (b : Build)
    (c : Collaborators Tbl Tuple Val Idx) (ex : UpsertExecutor) (rows : List Tuple)
    (w : World Tbl) (t0 : Tbl) (s1 : ExecState Tbl Tuple Idx)
    (ht0 : w.targetTable = .persistent t0) (hin : ex.m_inputTable = true)
    (hne : rows ≠ [] ∨ (b.DEBUG = false ∧ b.NDEBUG = true))
    (hloop : upsertLoop b c ex rows (initialState w) = .next s1)
    (hreject : c.outputAccepts s1.outputTable s1.modifiedTuples = false) :
    p_execute b c ex rows w = (.returned false, s1) ∧
      s1.outputTable = w.outputTable ∧ s1.m_tuplesModified = w.m_tuplesModified := by
  obtain ⟨k1, k2, -⟩ := upsertLoop_next b c ex rows _ s1 hloop
  refine ⟨?_, k1, k2⟩
  rw [p_execute_eq_of_loop b c ex rows w t0 ht0 hin hne, hloop]
  simp only [hreject, if_true]

/-- C12 witness: one row inserted into the empty example table, with an output table that
accepts no row. -/
theorem C12_result_row_write_failure_fails_witness :
    upsertLoop assertBuild (rejectingOutput exampleStorage) exUnpartitioned [⟨1, "a"⟩]
        (initialState emptyWorld) =
        .next ⟨some [⟨1, "a"⟩], 1, [], 0, [.lookupTuple ⟨1, "a"⟩, .insertTuple ⟨1, "a"⟩]⟩ ∧
      p_execute assertBuild (rejectingOutput exampleStorage) exUnpartitioned [⟨1, "a"⟩]
          emptyWorld =
        (.returned false,
          ⟨some [⟨1, "a"⟩], 1, [], 0, [.lookupTuple ⟨1, "a"⟩, .insertTuple ⟨1, "a"⟩]⟩) :=
  ⟨by decide,
    (C12_result_row_write_failure_fails assertBuild (rejectingOutput exampleStorage)
      exUnpartitioned [⟨1, "a"⟩] emptyWorld []
      ⟨some [⟨1, "a"⟩], 1, [], 0, [.lookupTuple ⟨1, "a"⟩, .insertTuple ⟨1, "a"⟩]⟩ rfl rfl
      (Or.inl (by decide)) (by decide) rfl).1⟩

/-! ### C13 -/

theorem loopBody_of_unpartitioned {Tbl Tuple Val Idx : Type} (b : Build)
    (c : Collaborators Tbl Tuple Val Idx) (ex : UpsertExecutor)
    (h : ex.m_partitionColumn = -1) (tb : Tuple) (s : ExecState Tbl Tuple Idx) :
    loopBody b c ex tb s = upsertTuple b c tb s := by
  apply loopBody_of_passes
  simp [passesLocalityFilter, h]

theorem upsertLoop_of_unpartitioned {Tbl Tuple Val Idx : Type} (b : Build)
    (c : Collaborators Tbl Tuple Val Idx) (ex1 ex2 : UpsertExecutor)
    (h1 : ex1.m_partitionColumn = -1) (h2 : ex2.m_partitionColumn = -1)
    (f : Val → Bool) (rows : List Tuple) :
    ∀ s : ExecState Tbl Tuple Idx,
      upsertLoop b { c with isLocalSite := f } ex2 rows s = upsertLoop b c ex1 rows s := by
  induction rows with
  | nil =>
    intro s
    rfl
  | cons tb rest ih =>
    intro s
    rw [upsertLoop_cons, upsertLoop_cons, loopBody_of_unpartitioned b _ ex2 h2,
      loopBody_of_unpartitioned b c ex1 h1]
    have hsame : upsertTuple b { c with isLocalSite := f } tb s = upsertTuple b c tb s :=
      rfl
    rw [hsame]
    cases upsertTuple b c tb s with
    | next s1 => exact ih s1
    | stop e s1 => rfl

theorem upsertLoop_constraintFailure {Tbl Tuple Val Idx : Type} (b : Build)
    (c : Collaborators Tbl Tuple Val Idx) (ex : UpsertExecutor) (rows : List Tuple) :
    ∀ (s s1 : ExecState Tbl Tuple Idx) (tbl : Option Tbl) (r : Tuple),
      upsertLoop b c ex rows s = .stop (.constraintFailure tbl r) s1 →
      r ∈ rows ∧ passesLocalityFilter c ex r = false ∧ ex.m_multiPartition = false := by
  induction rows with
  | nil =>
    intro s s1 tbl r h
    exact Step.noConfusion h
  | cons tb rest ih =>
    intro s s1 tbl r h
    rw [upsertLoop_cons] at h
    cases hstep : loopBody b c ex tb s with
    | next s2 =>
      rw [hstep] at h
      obtain ⟨k1, k2, k3⟩ := ih s2 s1 tbl r h
      exact ⟨List.mem_cons_of_mem tb k1, k2, k3⟩
    | stop e s2 =>
      rw [hstep] at h
      simp only at h
      injection h with he hs
      subst he
      by_cases hp : passesLocalityFilter c ex tb = true
      · rw [loopBody_of_passes b c ex tb s hp] at hstep
        obtain ⟨-, -, a3⟩ := upsertTuple_stop b c tb s s2 _ hstep
        rcases a3 with a3 | a3 | a3 <;> exact Exit.noConfusion a3
      · have hp1 : passesLocalityFilter c ex tb = false := by
          cases hq : passesLocalityFilter c ex tb
          · rfl
          · exact absurd hq hp
        rw [loopBody_of_not_passes b c ex tb s hp1] at hstep
        by_cases hm : ex.m_multiPartition = false
        · rw [if_pos hm] at hstep
          injection hstep with he2 hs2
          injection he2 with he3 he4
          subst he4
          exact ⟨List.mem_cons_self _ _, hp1, hm⟩
        · rw [if_neg hm] at hstep
          exact Step.noConfusion hstep

theorem p_execute_constraintFailure {Tbl Tuple Val Idx : Type} (b : Build)
    (c : Collaborators Tbl Tuple Val Idx) (ex : UpsertExecutor) (rows : List Tuple)
    (w : World Tbl) (tbl : Option Tbl) (r : Tuple)
    (h : (p_execute b c ex rows w).1 = .constraintFailure tbl r) :
    r ∈ rows ∧ passesLocalityFilter c ex r = false ∧ ex.m_multiPartition = false := by
  unfold p_execute at h
  simp only at h
  split at h
  · exact Exit.noConfusion h
  · split at h
    · exact Exit.noConfusion h
    · split at h
      · exact Exit.noConfusion h
      · split at h
        · exact Exit.noConfusion h
        · split at h
          · rename_i e s1 hl
            simp only at h
            subst h
            exact upsertLoop_constraintFailure b c ex rows _ s1 tbl r hl
          · split at h <;> exact Exit.noConfusion h

/-- C13: for an unpartitioned target table (`m_partitionColumn == -1`) the result of
`p_execute` - exit, final table, count, output table, engine counter and storage calls -
is the same for every locality oracle and for both values of the scope flag; every row
goes on to the lookup (no row is skipped), and `p_execute` never ends with the
mispartitioned-row `ConstraintFailureException`. -/
theorem C13_unpartitioned_ignores_oracle_and_scope {Tbl Tuple Val Idx : Type} (b : Build)
    (c : Collaborators Tbl Tuple Val Idx) (m_inputTable multi1 multi2 : Bool)
    (isLocalSite2 : Val → Bool) (rows : List Tuple) (w : World Tbl) :
    p_execute b { c with isLocalSite := isLocalSite2 }
        { m_inputTable := m_inputTable, m_partitionColumn := -1, m_multiPartition := multi2 }
        rows w =
      p_execute b c
        { m_inputTable := m_inputTable, m_partitionColumn := -1, m_multiPartition := multi1 }
        rows w ∧
      localRows c
        { m_inputTable := m_inputTable, m_partitionColumn := -1, m_multiPartition := multi1 }
        rows = rows ∧
      (∀ (tb : Tuple) (s : ExecState Tbl Tuple Idx),
        loopBody b c
          { m_inputTable := m_inputTable, m_partitionColumn := -1,
            m_multiPartition := multi1 } tb s = upsertTuple b c tb s) ∧
      (∀ (tbl : Option Tbl) (r : Tuple),
        (p_execute b c
          { m_inputTable := m_inputTable, m_partitionColumn := -1,
            m_multiPartition := multi1 } rows w).1 ≠ .constraintFailure tbl r) := by
  refine ⟨?_, localRows_of_unpartitioned c _ rows rfl,
    fun tb s => loopBody_of_unpartitioned b c _ rfl tb s, ?_⟩
  · unfold p_execute
    simp only [upsertLoop_of_unpartitioned b c
      { m_inputTable := m_inputTable, m_partitionColumn := -1, m_multiPartition := multi1 }
      { m_inputTable := m_inputTable, m_partitionColumn := -1, m_multiPartition := multi2 }
      rfl rfl isLocalSite2 rows]
  · intro tbl r h
    obtain ⟨-, k2, -⟩ := p_execute_constraintFailure b c _ rows w tbl r h
    simp [passesLocalityFilter] at k2

/-! ### C14 -/

theorem upsertTuple_mapStorage_insert {Tuple K Val : Type} [DecidableEq K] (b : Build)
    (pk : Tuple → K) (getNValue : Tuple → Int → Val) (isLocalSite : Val → Bool)
    (partitionColumn : Int) (outputAccepts : List Int → Int → Bool) (r : Tuple)
    (s : ExecState (List Tuple) Tuple Unit) (t : List Tuple) (ht : s.targetTable = some t)
    (habs : mapGet pk t (pk r) = none) :
    upsertTuple b (mapStorage pk getNValue isLocalSite partitionColumn outputAccepts) r s =
      .next { s with
              targetTable := some (t ++ [r])
              calls := s.calls ++ [.lookupTuple r, .insertTuple r]
              modifiedTuples := wrapInt32 (s.modifiedTuples + 1) } := by
  have hl : (mapStorage pk getNValue isLocalSite partitionColumn
      outputAccepts).lookupTuple t r = none := habs
  have hpk : (mapStorage pk getNValue isLocalSite partitionColumn
      outputAccepts).primaryKeyIndex t = true := rfl
  have hins : (mapStorage pk getNValue isLocalSite partitionColumn
      outputAccepts).insertTuple t r = (true, t ++ [r]) := rfl
  unfold upsertTuple
  simp only [ht, hpk, hl, hins, Bool.true_eq_false, false_and, if_false]

theorem upsertTuple_mapStorage_update {Tuple K Val : Type} [DecidableEq K] (b : Build)
    (pk : Tuple → K) (getNValue : Tuple → Int → Val) (isLocalSite : Val → Bool)
    (partitionColumn : Int) (outputAccepts : List Int → Int → Bool) (r e : Tuple)
    (s : ExecState (List Tuple) Tuple Unit) (t : List Tuple) (ht : s.targetTable = some t)
    (hpresent : mapGet pk t (pk r) = some e) :
    upsertTuple b (mapStorage pk getNValue isLocalSite partitionColumn outputAccepts) r s =
      .next { s with
              targetTable := some (t.map (fun x => if pk x = pk e then r else x))
              calls := s.calls ++ [.lookupTuple r, .updateTupleWithSpecificIndexes e r ()]
              modifiedTuples := wrapInt32 (s.modifiedTuples + 1) } := by
  have hl : (mapStorage pk getNValue isLocalSite partitionColumn
      outputAccepts).lookupTuple t r = some e := hpresent
  have hpk : (mapStorage pk getNValue isLocalSite partitionColumn
      outputAccepts).primaryKeyIndex t = true := rfl
  have hupd : (mapStorage pk getNValue isLocalSite partitionColumn
      outputAccepts).updateTupleWithSpecificIndexes t e r
        ((mapStorage pk getNValue isLocalSite partitionColumn outputAccepts).allIndexes t) =
      (true, t.map (fun x => if pk x = pk e then r else x)) := rfl
  unfold upsertTuple
  simp only [ht, hpk, hl, hupd, Bool.true_eq_false, false_and, if_false]

/-- C14: on the map model, let `r1` and `r2` be two rows that pass the locality filter and
carry the same primary key, absent from the table `t` when `r1` is reached, with rows of
other keys between them.  The iteration for `r1` looks the key up in `t` and inserts `r1`;
the lookup for `r2` is made on the table as modified since and finds the row `r1`
inserted; the iteration for `r2` therefore calls the update on that row with the values of
`r2` and no insert; both iterations increment the count; and the row stored under the key
afterwards is `r2`.  For the batch `[(1, a), (1, b)]` against the empty table, in every
build, the count is 2 and the table ends as `(1, b)`. -/
theorem C14_second_row_updates_the_first {Tuple K Val : Type} [DecidableEq K] (b : Build)
    (pk : Tuple → K) (getNValue : Tuple → Int → Val) (isLocalSite : Val → Bool)
    (partitionColumn : Int) (outputAccepts : List Int → Int → Bool)
    (c : Collaborators (List Tuple) Tuple Val Unit)
    (hc : c = mapStorage pk getNValue isLocalSite partitionColumn outputAccepts)
    (ex : UpsertExecutor) (r1 r2 : Tuple) (mid t : List Tuple)
    (s s3 : ExecState (List Tuple) Tuple Unit) (ht : s.targetTable = some t)
    (hkey : pk r2 = pk r1) (habs : mapGet pk t (pk r1) = none)
    (hl1 : passesLocalityFilter c ex r1 = true)
    (hl2 : passesLocalityFilter c ex r2 = true)
    (hmid : ∀ x ∈ mid, pk x ≠ pk r1)
    (hrun : upsertLoop b c ex (r1 :: mid) s = .next s3) :
    loopBody b c ex r1 s =
        .next { s with
                targetTable := some (t ++ [r1])
                calls := s.calls ++ [.lookupTuple r1, .insertTuple r1]
                modifiedTuples := wrapInt32 (s.modifiedTuples + 1) } ∧
      ∃ t3, s3.targetTable = some t3 ∧ c.lookupTuple t3 r2 = some r1 ∧
        loopBody b c ex r2 s3 =
          .next { s3 with
                  targetTable := some (t3.map (fun x => if pk x = pk r1 then r2 else x))
                  calls := s3.calls ++
                    [.lookupTuple r2, .updateTupleWithSpecificIndexes r1 r2 ()]
                  modifiedTuples := wrapInt32 (s3.modifiedTuples + 1) } ∧
        upsertLoop b c ex (r1 :: mid ++ [r2]) s =
          .next { s3 with
                  targetTable := some (t3.map (fun x => if pk x = pk r1 then r2 else x))
                  calls := s3.calls ++
                    [.lookupTuple r2, .updateTupleWithSpecificIndexes r1 r2 ()]
                  modifiedTuples := wrapInt32 (s3.modifiedTuples + 1) } ∧
        mapGet pk (t3.map (fun x => if pk x = pk r1 then r2 else x)) (pk r1) = some r2 ∧
        s3.calls.countP Call.isMutation + 1 =
          s.calls.countP Call.isMutation + (localRows c ex mid).length + 2 ∧
        (∀ b1 : Build,
          p_execute b1 exampleStorage exUnpartitioned [⟨1, "a"⟩, ⟨1, "b"⟩] emptyWorld =
            (.returned true,
              ⟨some [⟨1, "b"⟩], 2, [2], 2,
                [.lookupTuple ⟨1, "a"⟩, .insertTuple ⟨1, "a"⟩, .lookupTuple ⟨1, "b"⟩,
                  .updateTupleWithSpecificIndexes ⟨1, "a"⟩ ⟨1, "b"⟩ ()]⟩)) := by
  subst hc
  have h1 := upsertTuple_mapStorage_insert b pk getNValue isLocalSite partitionColumn
    outputAccepts r1 s t ht habs
  rw [← loopBody_of_passes b _ ex r1 s hl1] at h1
  refine ⟨h1, ?_⟩
  rw [upsertLoop_cons, h1] at hrun
  simp only at hrun
  obtain ⟨t3, ht3, hget⟩ := upsertLoop_mapStorage b pk getNValue isLocalSite
    partitionColumn outputAccepts ex mid _ s3 (t ++ [r1]) rfl hrun
  obtain ⟨-, -, -, hcount, -⟩ := upsertLoop_next b _ ex mid _ s3 hrun
  have hfound : mapGet pk t3 (pk r2) = some r1 := by
    have hno : ∀ x ∈ localRows (mapStorage pk getNValue isLocalSite partitionColumn
        outputAccepts) ex mid, pk x ≠ pk r1 :=
      fun x hx => hmid x (List.mem_of_mem_filter hx)
    rw [hkey, hget, specUpsert_of_not_mem pk _ _ (pk r1) hno,
      mapGet_insert pk t r1 habs]
    simp [specSetRow]
  have h2 := upsertTuple_mapStorage_update b pk getNValue isLocalSite partitionColumn
    outputAccepts r2 r1 s3 t3 ht3 hfound
  rw [← loopBody_of_passes b _ ex r2 s3 hl2] at h2
  refine ⟨t3, ht3, hfound, h2, ?_, ?_, ?_, ?_⟩
  · have happ : r1 :: mid ++ [r2] = (r1 :: mid) ++ [r2] := rfl
    rw [happ, upsertLoop_append, upsertLoop_cons, h1]
    simp only
    rw [hrun]
    simp only
    rw [upsertLoop_cons, h2]
    rfl
  · rw [mapGet_update pk t3 r1 r2 hfound (pk r1)]
    simp [specSetRow, hkey]
  · rw [hcount]
    simp [List.countP_append, List.countP_cons, Call.isMutation]
    omega
  · intro b1
    rcases b1 with ⟨_ | _, _ | _⟩ <;> decide

/-- C14 witness: the rows `(1, a)` and `(1, b)` with the row `(3, c)` between them,
against the empty example table. -/
theorem C14_second_row_updates_the_first_witness :
    upsertLoop assertBuild exampleStorage exSingle [⟨1, "a"⟩, ⟨3, "c"⟩]
        (initialState emptyWorld) =
        .next ⟨some [⟨1, "a"⟩, ⟨3, "c"⟩], 2, [], 0,
          [.lookupTuple ⟨1, "a"⟩, .insertTuple ⟨1, "a"⟩, .lookupTuple ⟨3, "c"⟩,
            .insertTuple ⟨3, "c"⟩]⟩ ∧
      ∃ t3 : List Row, some [(⟨1, "a"⟩ : Row), ⟨3, "c"⟩] = some t3 ∧
        exampleStorage.lookupTuple t3 ⟨1, "b"⟩ = some ⟨1, "a"⟩ := by
  refine ⟨by decide, ?_⟩
  obtain ⟨-, t3, h1, h2, -⟩ :=
    C14_second_row_updates_the_first assertBuild Row.id Row.getNValue oddIsLocal 0
      (fun _ _ => true) exampleStorage rfl exSingle ⟨1, "a"⟩ ⟨1, "b"⟩ [⟨3, "c"⟩] []
      (initialState emptyWorld)
      ⟨some [⟨1, "a"⟩, ⟨3, "c"⟩], 2, [], 0,
        [.lookupTuple ⟨1, "a"⟩, .insertTuple ⟨1, "a"⟩, .lookupTuple ⟨3, "c"⟩,
          .insertTuple ⟨3, "c"⟩]⟩
      rfl rfl rfl (by decide) (by decide) (by decide) (by decide)
  exact ⟨t3, h1, h2⟩

/-! ### C15 -/

theorem loopBody_stop_state {Tbl Tuple Val Idx : Type} (b : Build)
    (c : Collaborators Tbl Tuple Val Idx) (ex : UpsertExecutor) (r : Tuple)
    (s s2 : ExecState Tbl Tuple Idx) (e : Exit Tbl Tuple)
    (hstop : loopBody b c ex r s = .stop e s2) :
    (e ≠ .returned false → s2 = s) ∧
      (e = .returned false →
        ∃ t, s.targetTable = some t ∧
          ((c.lookupTuple t r = none ∧ (c.insertTuple t r).1 = false ∧
              s2.targetTable = some (c.insertTuple t r).2) ∨
            (∃ x, c.lookupTuple t r = some x ∧
              (c.updateTupleWithSpecificIndexes t x r (c.allIndexes t)).1 = false ∧
              s2.targetTable =
                some (c.updateTupleWithSpecificIndexes t x r (c.allIndexes t)).2))) := by
  unfold loopBody at hstop
  split at hstop
  · split at hstop
    · injection hstop with h1 h2
      subst h1 h2
      exact ⟨fun _ => rfl, fun h => Exit.noConfusion h⟩
    · exact Step.noConfusion hstop
  · unfold upsertTuple at hstop
    split at hstop
    · injection hstop with h1 h2
      subst h1 h2
      exact ⟨fun _ => rfl, fun h => Exit.noConfusion h⟩
    · rename_i t ht
      split at hstop
      · injection hstop with h1 h2
        subst h1 h2
        exact ⟨fun _ => rfl, fun h => Exit.noConfusion h⟩
      · split at hstop
        · rename_i hl
          simp only at hstop
          split at hstop
          · rename_i hf
            injection hstop with h1 h2
            subst h1 h2
            exact ⟨fun h => absurd rfl h, fun _ => ⟨t, ht, Or.inl ⟨hl, hf, rfl⟩⟩⟩
          · exact Step.noConfusion hstop
        · rename_i x hl
          simp only at hstop
          split at hstop
          · rename_i hf
            injection hstop with h1 h2
            subst h1 h2
            exact ⟨fun h => absurd rfl h, fun _ => ⟨t, ht, Or.inr ⟨x, hl, hf, rfl⟩⟩⟩
          · exact Step.noConfusion hstop

/-- C15: let the loop process the rows `pre` on their own without leaving, ending in state
`s1`, and let the iteration for the next row `r` leave `p_execute` with exit `e` in state
`s2`.  Then `p_execute` on `pre ++ r :: post` ends with `e` in `s2` whatever the rows
`post` are.  When `e` is not a returned false (the mispartitioned-row exception, an
assertion), `s2` is `s1`: the target table is the one the rows before `r` produced.  When
`e` is a returned false, it comes from the insert or update call for `r` on that table, and
the target table is what the failing call left: the table of `s1` whenever a storage call
that reports failure leaves the table as it was.  With no row before `r`, `s1` is the
initial state, so the table is the one `p_execute` started with. -/
theorem C15_abort_leaves_earlier_rows_applied {Tbl Tuple Val Idx : Type} (b : Build)
    (c : Collaborators Tbl Tuple Val Idx) (ex : UpsertExecutor) (pre post : List Tuple)
    (r : Tuple) (w : World Tbl) (t0 : Tbl) (s1 s2 : ExecState Tbl Tuple Idx)
    (e : Exit Tbl Tuple) (ht0 : w.targetTable = .persistent t0)
    (hin : ex.m_inputTable = true)
    (hpre : upsertLoop b c ex pre (initialState w) = .next s1)
    (hstop : loopBody b c ex r s1 = .stop e s2) :
    (∀ post2 : List Tuple, p_execute b c ex (pre ++ r :: post2) w = (e, s2)) ∧
      p_execute b c ex (pre ++ r :: post) w = (e, s2) ∧
      (e ≠ .returned false → s2 = s1) ∧
      (e = .returned false →
        (∀ t tb, (c.insertTuple t tb).1 = false → (c.insertTuple t tb).2 = t) →
        (∀ t x tb i, (c.updateTupleWithSpecificIndexes t x tb i).1 = false →
          (c.updateTupleWithSpecificIndexes t x tb i).2 = t) →
        s2.targetTable = s1.targetTable) ∧
      (pre = [] → s1.targetTable = some t0) := by
  have hrun : ∀ post2 : List Tuple, p_execute b c ex (pre ++ r :: post2) w = (e, s2) :=
    fun post2 => p_execute_stop_at b c ex pre post2 r w t0 s1 s2 e ht0 hin hpre hstop
  obtain ⟨k1, k2⟩ := loopBody_stop_state b c ex r s1 s2 e hstop
  refine ⟨hrun, hrun post, k1, ?_, ?_⟩
  · intro he hins hupd
    obtain ⟨t, ht, hcase⟩ := k2 he
    rcases hcase with ⟨-, hf, h2⟩ | ⟨x, -, hf, h2⟩
    · rw [h2, ht, hins t r hf]
    · rw [h2, ht, hupd t x r _ hf]
  · intro hnil
    subst hnil
    rw [upsertLoop_nil] at hpre
    injection hpre with hpre
    subst hpre
    simp [initialState, ht0, Table.asPersistent]

/-- C15 witness: single-partition scope, batch `[(1, a), (2, b), (3, c)]` against the empty
example table; the row with `id = 2` is not local, so the abort happens at position 1 with
the first row applied. -/
theorem C15_abort_leaves_earlier_rows_applied_witness :
    upsertLoop assertBuild exampleStorage exSingle [⟨1, "a"⟩] (initialState emptyWorld) =
        .next ⟨some [⟨1, "a"⟩], 1, [], 0, [.lookupTuple ⟨1, "a"⟩, .insertTuple ⟨1, "a"⟩]⟩ ∧
      p_execute assertBuild exampleStorage exSingle ([⟨1, "a"⟩] ++ ⟨2, "b"⟩ :: [⟨3, "c"⟩])
          emptyWorld =
        (.constraintFailure (some [⟨1, "a"⟩]) ⟨2, "b"⟩,
          ⟨some [⟨1, "a"⟩], 1, [], 0, [.lookupTuple ⟨1, "a"⟩, .insertTuple ⟨1, "a"⟩]⟩) :=
  ⟨by decide,
    (C15_abort_leaves_earlier_rows_applied assertBuild exampleStorage exSingle [⟨1, "a"⟩]
      [⟨3, "c"⟩] ⟨2, "b"⟩ emptyWorld []
      ⟨some [⟨1, "a"⟩], 1, [], 0, [.lookupTuple ⟨1, "a"⟩, .insertTuple ⟨1, "a"⟩]⟩
      ⟨some [⟨1, "a"⟩], 1, [], 0, [.lookupTuple ⟨1, "a"⟩, .insertTuple ⟨1, "a"⟩]⟩
      (.constraintFailure (some [⟨1, "a"⟩]) ⟨2, "b"⟩) rfl rfl (by decide) (by decide)).2.1⟩

/-! ### C16 -/

theorem exists_first_local {Tbl Tuple Val Idx : Type}
    (c : Collaborators Tbl Tuple Val Idx) (ex : UpsertExecutor) (rows : List Tuple)
    (h : ∃ r ∈ rows, passesLocalityFilter c ex r = true) :
    ∃ pre r post, rows = pre ++ r :: post ∧
      (∀ x ∈ pre, passesLocalityFilter c ex x = false) ∧
      passesLocalityFilter c ex r = true := by
  induction rows with
  | nil =>
    obtain ⟨r, hr, -⟩ := h
    exact absurd hr (List.not_mem_nil r)
  | cons tb rest ih =>
    cases hp : passesLocalityFilter c ex tb with
    | true => exact ⟨[], tb, rest, rfl, fun x hx => absurd hx (List.not_mem_nil x), hp⟩
    | false =>
      obtain ⟨r, hr, hr2⟩ := h
      have hmem : r ∈ rest := by
        rcases List.mem_cons.1 hr with h1 | h1
        · rw [h1, hp] at hr2
          exact Bool.noConfusion hr2
        · exact h1
      obtain ⟨pre, r1, post, e1, e2, e3⟩ := ih ⟨r, hmem, hr2⟩
      refine ⟨tb :: pre, r1, post, by rw [e1]; rfl, ?_, e3⟩
      intro x hx
      rcases List.mem_cons.1 hx with h1 | h1
      · rw [h1]
        exact hp
      · exact e2 x h1

theorem upsertLoop_all_skipped {Tbl Tuple Val Idx : Type} (b : Build)
    (c : Collaborators Tbl Tuple Val Idx) (ex : UpsertExecutor)
    (hmulti : ex.m_multiPartition = true) (rows : List Tuple)
    (hall : ∀ x ∈ rows, passesLocalityFilter c ex x = false)
    (s : ExecState Tbl Tuple Idx) : upsertLoop b c ex rows s = .next s := by
  have hnil : localRows c ex rows = [] := by
    unfold localRows
    rw [List.filter_eq_nil_iff]
    intro x hx
    rw [hall x hx]
    exact Bool.false_ne_true
  rw [upsertLoop_localRows b c ex hmulti rows s, hnil, upsertLoop_nil]

theorem upsertTuple_of_missing_index {Tbl Tuple Val Idx : Type} (b : Build)
    (c : Collaborators Tbl Tuple Val Idx) (r : Tuple) (s : ExecState Tbl Tuple Idx)
    (t : Tbl) (ht : s.targetTable = some t) (hnopk : c.primaryKeyIndex t = false)
    (hassert : b.NDEBUG = false) : upsertTuple b c r s = .stop .assertFailed s := by
  unfold upsertTuple
  simp only [ht]
  rw [if_pos ⟨hnopk, hassert⟩]

/-- C16 (amended): in a build with assertions enabled, for a persistent target table
without a primary-key index and a batch in which some row passes the locality filter,
`p_execute` ends in its initial state: no storage call is made, no row is written to the
output table, the target table and the engine counter are untouched, and the exit is never
a returned true.  With `r` the first row that passes the filter, the exit is the failed
assertion of line 127 at `r`, unless the scope is single-partition and a row precedes `r`,
in which case it is the mispartitioned-row exception for the first row of the batch. -/
theorem C16_missing_index_stops_at_first_local_row {Tbl Tuple Val Idx : Type} (b : Build)
    (c : Collaborators Tbl Tuple Val Idx) (ex : UpsertExecutor) (rows : List Tuple)
    (w : World Tbl) (t0 : Tbl) (ht0 : w.targetTable = .persistent t0)
    (hin : ex.m_inputTable = true) (hassert : b.NDEBUG = false)
    (hnopk : c.primaryKeyIndex t0 = false)
    (hrow : ∃ r ∈ rows, passesLocalityFilter c ex r = true) :
    (p_execute b c ex rows w).2 = initialState w ∧
      (p_execute b c ex rows w).1 ≠ .returned true ∧
      (p_execute b c ex rows w).2.calls = [] ∧
      (p_execute b c ex rows w).2.outputTable = w.outputTable ∧
      (p_execute b c ex rows w).2.targetTable = some t0 ∧
      ∃ pre r post, rows = pre ++ r :: post ∧
        (∀ x ∈ pre, passesLocalityFilter c ex x = false) ∧
        passesLocalityFilter c ex r = true ∧
        (ex.m_multiPartition = true ∨ pre = [] →
          (p_execute b c ex rows w).1 = .assertFailed) ∧
        (ex.m_multiPartition = false → ∀ x rest, pre = x :: rest →
          (p_execute b c ex rows w).1 = .constraintFailure (some t0) x) := by
  obtain ⟨pre, r, post, hdec, hpre, hr⟩ := exists_first_local c ex rows hrow
  have hinit : (initialState w : ExecState Tbl Tuple Idx).targetTable = some t0 := by
    simp [initialState, ht0, Table.asPersistent]
  have hne : rows ≠ [] := by
    rw [hdec]
    simp
  have hatr : loopBody b c ex r (initialState w) = .stop .assertFailed (initialState w) := by
    rw [loopBody_of_passes b c ex r _ hr]
    exact upsertTuple_of_missing_index b c r _ t0 hinit hnopk hassert
  have hcases : (ex.m_multiPartition = true ∨ pre = [] →
        p_execute b c ex rows w = (.assertFailed, initialState w)) ∧
      (ex.m_multiPartition = false → ∀ x rest, pre = x :: rest →
        p_execute b c ex rows w = (.constraintFailure (some t0) x, initialState w)) := by
    refine ⟨?_, ?_⟩
    · intro hor
      have hloop : upsertLoop b c ex pre (initialState w) = .next (initialState w) := by
        rcases hor with hm | hnil
        · exact upsertLoop_all_skipped b c ex hm pre hpre _
        · rw [hnil, upsertLoop_nil]
      rw [hdec]
      exact p_execute_stop_at b c ex pre post r w t0 _ _ _ ht0 hin hloop hatr
    · intro hm x rest hx
      have hstop : loopBody b c ex x (initialState w) =
          .stop (.constraintFailure (some t0) x) (initialState w) := by
        rw [loopBody_of_not_passes b c ex x _ (hpre x (by rw [hx]; exact List.mem_cons_self _ _)),
          if_pos hm, hinit]
      have hrows : rows = [] ++ x :: (rest ++ r :: post) := by
        rw [hdec, hx]
        rfl
      rw [hrows]
      exact p_execute_stop_at b c ex [] _ x w t0 _ _ _ ht0 hin (upsertLoop_nil b c ex _) hstop
  have hstate : (p_execute b c ex rows w).2 = initialState w ∧
      (p_execute b c ex rows w).1 ≠ .returned true := by
    by_cases hm : ex.m_multiPartition = true
    · rw [hcases.1 (Or.inl hm)]
      exact ⟨rfl, fun h => Exit.noConfusion h⟩
    · have hm1 : ex.m_multiPartition = false := by
        cases hq : ex.m_multiPartition
        · rfl
        · exact absurd hq hm
      cases hpre0 : pre with
      | nil =>
        rw [hcases.1 (Or.inr hpre0)]
        exact ⟨rfl, fun h => Exit.noConfusion h⟩
      | cons x rest =>
        rw [hcases.2 hm1 x rest hpre0]
        exact ⟨rfl, fun h => Exit.noConfusion h⟩
  refine ⟨hstate.1, hstate.2, ?_, ?_, ?_, pre, r, post, hdec, hpre, hr, ?_, ?_⟩
  · rw [hstate.1]
    rfl
  · rw [hstate.1]
    rfl
  · rw [hstate.1]
    exact hinit
  · intro hor
    rw [hcases.1 hor]
  · intro hm x rest hx
    rw [hcases.2 hm x rest hx]

/-- C16 witness: the example table without its primary-key index, assertions enabled,
multi-partition scope, batch `[(2, b), (1, a)]`: the non-local row is skipped and the
assertion fails at the local row. -/
theorem C16_missing_index_stops_at_first_local_row_witness :
    (∃ r ∈ [(⟨2, "b"⟩ : Row), ⟨1, "a"⟩],
        passesLocalityFilter (withoutPrimaryKey exampleStorage) exMulti r = true) ∧
      (p_execute assertBuild (withoutPrimaryKey exampleStorage) exMulti
        [⟨2, "b"⟩, ⟨1, "a"⟩] emptyWorld).2 = initialState emptyWorld ∧
      (p_execute assertBuild (withoutPrimaryKey exampleStorage) exMulti
        [⟨2, "b"⟩, ⟨1, "a"⟩] emptyWorld).1 ≠ .returned true :=
  ⟨⟨⟨1, "a"⟩, by decide, by decide⟩,
    (C16_missing_index_stops_at_first_local_row assertBuild
      (withoutPrimaryKey exampleStorage) exMulti [⟨2, "b"⟩, ⟨1, "a"⟩] emptyWorld [] rfl rfl
      rfl rfl ⟨⟨1, "a"⟩, by decide, by decide⟩).1,
    (C16_missing_index_stops_at_first_local_row assertBuild
      (withoutPrimaryKey exampleStorage) exMulti [⟨2, "b"⟩, ⟨1, "a"⟩] emptyWorld [] rfl rfl
      rfl rfl ⟨⟨1, "a"⟩, by decide, by decide⟩).2.1⟩

/-- C16 counterexample: the example table without its primary-key index.  With `NDEBUG`
the one-row batch `[(1, a)]` is looked up and inserted and `p_execute` returns true with
count 1.  With assertions enabled, in single-partition scope, the batch
`[(2, b), (1, a)]` ends with the mispartitioned-row exception for `(2, b)`, before the row
`(1, a)` that passes the filter is reached. -/
theorem C16_counterexample :
    (withoutPrimaryKey exampleStorage).primaryKeyIndex [] = false ∧
      passesLocalityFilter (withoutPrimaryKey exampleStorage) exUnpartitioned ⟨1, "a"⟩ =
        true ∧
      p_execute releaseBuild (withoutPrimaryKey exampleStorage) exUnpartitioned
          [⟨1, "a"⟩] emptyWorld =
        (.returned true,
          ⟨some [⟨1, "a"⟩], 1, [1], 1, [.lookupTuple ⟨1, "a"⟩, .insertTuple ⟨1, "a"⟩]⟩) ∧
      passesLocalityFilter (withoutPrimaryKey exampleStorage) exSingle ⟨1, "a"⟩ = true ∧
      p_execute assertBuild (withoutPrimaryKey exampleStorage) exSingle
          [⟨2, "b"⟩, ⟨1, "a"⟩] emptyWorld =
        (.constraintFailure (some []) ⟨2, "b"⟩, ⟨some [], 0, [], 0, []⟩) := by
  decide

/-! ### C17 -/

theorem upsertTuple_calls {Tbl Tuple Val Idx : Type} (b : Build)
    (c : Collaborators Tbl Tuple Val Idx) (tb : Tuple) (s : ExecState Tbl Tuple Idx) :
    (upsertTuple b c tb s).state.calls = s.calls ∨
      (∃ t, s.targetTable = some t ∧ c.lookupTuple t tb = none ∧
        (upsertTuple b c tb s).state.calls =
          s.calls ++ [.lookupTuple tb, .insertTuple tb]) ∨
      (∃ t e, s.targetTable = some t ∧ c.lookupTuple t tb = some e ∧
        (upsertTuple b c tb s).state.calls =
          s.calls ++ [.lookupTuple tb,
            .updateTupleWithSpecificIndexes e tb (c.allIndexes t)]) := by
  unfold upsertTuple
  split
  · exact Or.inl rfl
  · rename_i t ht
    split
    · exact Or.inl rfl
    · split
      · rename_i hl
        refine Or.inr (Or.inl ⟨t, ht, hl, ?_⟩)
        simp only
        split <;> rfl
      · rename_i e hl
        refine Or.inr (Or.inr ⟨t, e, ht, hl, ?_⟩)
        simp only
        split <;> rfl

theorem loopBody_calls {Tbl Tuple Val Idx : Type} (b : Build)
    (c : Collaborators Tbl Tuple Val Idx) (ex : UpsertExecutor) (tb : Tuple)
    (s : ExecState Tbl Tuple Idx) :
    (loopBody b c ex tb s).state.calls = s.calls ∨
      (∃ t, s.targetTable = some t ∧ c.lookupTuple t tb = none ∧
        (loopBody b c ex tb s).state.calls =
          s.calls ++ [.lookupTuple tb, .insertTuple tb]) ∨
      (∃ t e, s.targetTable = some t ∧ c.lookupTuple t tb = some e ∧
        (loopBody b c ex tb s).state.calls =
          s.calls ++ [.lookupTuple tb,
            .updateTupleWithSpecificIndexes e tb (c.allIndexes t)]) := by
  by_cases hp : passesLocalityFilter c ex tb = true
  · rw [loopBody_of_passes b c ex tb s hp]
    exact upsertTuple_calls b c tb s
  · have hp1 : passesLocalityFilter c ex tb = false := by
      cases hq : passesLocalityFilter c ex tb
      · rfl
      · exact absurd hq hp
    rw [loopBody_of_not_passes b c ex tb s hp1]
    left
    split <;> rfl

theorem upsertLoop_updates_well_formed {Tbl Tuple Val Idx : Type} (b : Build)
    (c : Collaborators Tbl Tuple Val Idx) (ex : UpsertExecutor) (all : List Tuple)
    (rows : List Tuple) :
    ∀ s : ExecState Tbl Tuple Idx, (∀ x ∈ rows, x ∈ all) →
      (∀ e x i, Call.updateTupleWithSpecificIndexes e x i ∈ s.calls →
        x ∈ all ∧ ∃ t, c.lookupTuple t x = some e ∧ i = c.allIndexes t) →
      ∀ e x i, Call.updateTupleWithSpecificIndexes e x i ∈
          (upsertLoop b c ex rows s).state.calls →
        x ∈ all ∧ ∃ t, c.lookupTuple t x = some e ∧ i = c.allIndexes t := by
  induction rows with
  | nil =>
    intro s _ hs
    exact hs
  | cons tb rest ih =>
    intro s hsub hs
    have hbody : ∀ e x i, Call.updateTupleWithSpecificIndexes e x i ∈
        (loopBody b c ex tb s).state.calls →
        x ∈ all ∧ ∃ t, c.lookupTuple t x = some e ∧ i = c.allIndexes t := by
      intro e x i hmem
      rcases loopBody_calls b c ex tb s with h | ⟨t, -, -, h⟩ | ⟨t, e1, -, hl, h⟩
      · rw [h] at hmem
        exact hs e x i hmem
      · rw [h] at hmem
        rcases List.mem_append.1 hmem with h1 | h1
        · exact hs e x i h1
        · simp at h1
      · rw [h] at hmem
        rcases List.mem_append.1 hmem with h1 | h1
        · exact hs e x i h1
        · simp only [List.mem_cons, List.mem_singleton, List.not_mem_nil, or_false,
            false_or, Call.updateTupleWithSpecificIndexes.injEq] at h1
          rcases h1 with h1 | h1
          · exact Call.noConfusion h1
          · obtain ⟨h2, h3, h4⟩ := h1
            subst h2 h3 h4
            exact ⟨hsub _ (List.mem_cons_self _ _), t, hl, rfl⟩
    rw [upsertLoop_cons]
    cases hstep : loopBody b c ex tb s with
    | next s1 =>
      rw [hstep] at hbody
      exact ih s1 (fun x hx => hsub x (List.mem_cons_of_mem tb hx)) hbody
    | stop e1 s1 =>
      rw [hstep] at hbody
      exact hbody

theorem p_execute_calls {Tbl Tuple Val Idx : Type} (b : Build)
    (c : Collaborators Tbl Tuple Val Idx) (ex : UpsertExecutor) (rows : List Tuple)
    (w : World Tbl) :
    (p_execute b c ex rows w).2.calls = [] ∨
      (p_execute b c ex rows w).2.calls =
        (upsertLoop b c ex rows (initialState w)).state.calls := by
  unfold p_execute
  simp only
  split
  · exact Or.inl rfl
  · split
    · exact Or.inl rfl
    · split
      · exact Or.inl rfl
      · split
        · exact Or.inl rfl
        · right
          cases upsertLoop b c ex rows (initialState w) with
          | stop e s1 => rfl
          | next s1 =>
            simp only
            split <;> rfl

/-- C17: every `updateTupleWithSpecificIndexes` call recorded for an execution of
`p_execute` has as its new values a row of the input batch, as its resident row the row the
lookup for that candidate returned on some state `t` of the target table, and as its index
set `allIndexes()` of that same table state.  In the iteration itself, whenever the lookup
on the current table `t` returns the resident row `e`, the calls made are the lookup and
the update of `e` with the candidate and `allIndexes()` of `t`, and the table afterwards is
the one this update left. -/
theorem C17_update_uses_resident_row_and_all_indexes {Tbl Tuple Val Idx : Type} (b : Build)
    (c : Collaborators Tbl Tuple Val Idx) (ex : UpsertExecutor) (rows : List Tuple)
    (w : World Tbl) :
    (∀ e x i, Call.updateTupleWithSpecificIndexes e x i ∈ (p_execute b c ex rows w).2.calls →
        x ∈ rows ∧ ∃ t, c.lookupTuple t x = some e ∧ i = c.allIndexes t) ∧
      (∀ (tb e : Tuple) (s : ExecState Tbl Tuple Idx) (t : Tbl),
        s.targetTable = some t → passesLocalityFilter c ex tb = true →
        (c.primaryKeyIndex t = true ∨ b.NDEBUG = true) → c.lookupTuple t tb = some e →
        (loopBody b c ex tb s).state.calls =
            s.calls ++ [.lookupTuple tb,
              .updateTupleWithSpecificIndexes e tb (c.allIndexes t)] ∧
          (loopBody b c ex tb s).state.targetTable =
            some (c.updateTupleWithSpecificIndexes t e tb (c.allIndexes t)).2) := by
  refine ⟨?_, ?_⟩
  · intro e x i hmem
    rcases p_execute_calls b c ex rows w with h | h
    · rw [h] at hmem
      exact absurd hmem (List.not_mem_nil _)
    · rw [h] at hmem
      exact upsertLoop_updates_well_formed b c ex rows rows _ (fun _ hx => hx)
        (fun e x i hx => absurd hx (List.not_mem_nil _)) e x i hmem
  · intro tb e s t ht hp hpk hl
    have hguard : ¬ (c.primaryKeyIndex t = false ∧ b.NDEBUG = false) := by
      rintro ⟨h1, h2⟩
      rcases hpk with h | h
      · rw [h] at h1
        exact Bool.noConfusion h1
      · rw [h] at h2
        exact Bool.noConfusion h2
    rw [loopBody_of_passes b c ex tb s hp]
    unfold upsertTuple
    simp only [ht]
    rw [if_neg hguard]
    simp only [hl]
    split <;> exact ⟨rfl, rfl⟩

/-! ### C18 -/

theorem p_execute_failure {Tbl Tuple Val Idx : Type} (b : Build)
    (c : Collaborators Tbl Tuple Val Idx) (ex : UpsertExecutor) (rows : List Tuple)
    (w : World Tbl) (h : (p_execute b c ex rows w).1 ≠ .returned true) :
    (p_execute b c ex rows w).2.m_tuplesModified = w.m_tuplesModified ∧
      (p_execute b c ex rows w).2.outputTable = w.outputTable := by
  unfold p_execute at h ⊢
  simp only at h ⊢
  split
  · exact ⟨rfl, rfl⟩
  · split
    · exact ⟨rfl, rfl⟩
    · split
      · exact ⟨rfl, rfl⟩
      · split
        · exact ⟨rfl, rfl⟩
        · rename_i h1 h2 h3 h4
          rw [if_neg h1, if_neg h2, if_neg h3, if_neg h4] at h
          cases hl : upsertLoop b c ex rows (initialState w) with
          | stop e s1 =>
            obtain ⟨k1, k2, -⟩ := upsertLoop_stop b c ex rows _ s1 e hl
            exact ⟨k2, k1⟩
          | next s1 =>
            obtain ⟨k1, k2, -⟩ := upsertLoop_next b c ex rows _ s1 hl
            rw [hl] at h
            cases hacc : c.outputAccepts s1.outputTable s1.modifiedTuples
            · simp only [outputInsertTuple, hacc, Bool.false_eq_true, if_false, if_true]
              exact ⟨k2, k1⟩
            · simp [outputInsertTuple, hacc] at h

/-- C18: when `p_execute` returns true, the engine counter `m_tuplesModified` is its old
value plus the value of the one row appended to the output table, the sum being taken by
`+=` on the 64-bit counter (and equal to the mathematical sum whenever that sum is a 64-bit
value); on every other exit (the mispartitioned-row exception, a returned false after an
insert, an update or the write of the count row, a failed assertion) the engine counter
and the output table are as they were.  In the batch `[(1, a), (2, b)]` in single-partition scope the first row is inserted
into the target table before the exception for the second, and the counter stays 0. -/
theorem C18_engine_counter_changes_only_on_success {Tbl Tuple Val Idx : Type} (b : Build)
    (c : Collaborators Tbl Tuple Val Idx) (ex : UpsertExecutor) (rows : List Tuple)
    (w : World Tbl) :
    ((p_execute b c ex rows w).1 = .returned true →
        ∃ v, (p_execute b c ex rows w).2.outputTable = w.outputTable ++ [v] ∧
          (p_execute b c ex rows w).2.m_tuplesModified =
            wrapInt64 (w.m_tuplesModified + v) ∧
          (-9223372036854775808 ≤ w.m_tuplesModified + v →
            w.m_tuplesModified + v < 9223372036854775808 →
            (p_execute b c ex rows w).2.m_tuplesModified = w.m_tuplesModified + v)) ∧
      ((p_execute b c ex rows w).1 ≠ .returned true →
        (p_execute b c ex rows w).2.m_tuplesModified = w.m_tuplesModified ∧
          (p_execute b c ex rows w).2.outputTable = w.outputTable) ∧
      p_execute assertBuild exampleStorage exSingle [⟨1, "a"⟩, ⟨2, "b"⟩] emptyWorld =
        (.constraintFailure (some [⟨1, "a"⟩]) ⟨2, "b"⟩,
          ⟨some [⟨1, "a"⟩], 1, [], 0, [.lookupTuple ⟨1, "a"⟩, .insertTuple ⟨1, "a"⟩]⟩) := by
  refine ⟨?_, p_execute_failure b c ex rows w, by decide⟩
  intro h
  have hpair : p_execute b c ex rows w = (.returned true, (p_execute b c ex rows w).2) := by
    rw [← h]
  obtain ⟨r1, -, r3, -⟩ := p_execute_success_count b c ex rows w _ hpair
  refine ⟨_, r1, r3, fun h0 h1 => ?_⟩
  rw [r3]
  exact wrapInt64_of_range _ h0 h1

/-! ### C19 -/

/-- C19 (amended): for a persistent target table partitioned on some column and a batch all
of whose rows are non-local, with or without a primary-key index (no assumption is made on
it).  In multi-partition scope, if the batch is non-empty (or the build defines `NDEBUG`
and not `DEBUG`) and the output table accepts the count row, `p_execute` returns true with
count 0, no storage call and an unchanged target table.  In single-partition scope
`p_execute` ends with the mispartitioned-row exception for the first row of the batch, in
the initial state.  In any state, the iteration for a non-local row in single-partition
scope ends with that exception, without reaching the primary-key check. -/
theorem C19_locality_filter_precedes_index_check {Tbl Tuple Val Idx : Type} (b : Build)
    (c : Collaborators Tbl Tuple Val Idx) (ex : UpsertExecutor) (rows : List Tuple)
    (w : World Tbl) (t0 : Tbl) (ht0 : w.targetTable = .persistent t0)
    (hin : ex.m_inputTable = true) (hpart : ex.m_partitionColumn ≠ -1)
    (hall : ∀ x ∈ rows, c.isLocalSite (c.getNValue x ex.m_partitionColumn) = false)
    (hne : rows ≠ [] ∨ (b.DEBUG = false ∧ b.NDEBUG = true)) :
    (ex.m_multiPartition = true → c.outputAccepts w.outputTable 0 = true →
        p_execute b c ex rows w =
          (.returned true,
            { targetTable := some t0
              modifiedTuples := 0
              outputTable := w.outputTable ++ [0]
              m_tuplesModified := wrapInt64 (w.m_tuplesModified + 0)
              calls := [] })) ∧
      (ex.m_multiPartition = false → ∀ x rest, rows = x :: rest →
        p_execute b c ex rows w =
          (.constraintFailure (some t0) x,
            { targetTable := some t0
              modifiedTuples := 0
              outputTable := w.outputTable
              m_tuplesModified := w.m_tuplesModified
              calls := [] })) ∧
      (ex.m_multiPartition = false →
        ∀ (r : Tuple) (s : ExecState Tbl Tuple Idx),
          c.isLocalSite (c.getNValue r ex.m_partitionColumn) = false →
          loopBody b c ex r s = .stop (.constraintFailure s.targetTable r) s) := by
  have hinit : (initialState w : ExecState Tbl Tuple Idx) =
      { targetTable := some t0
        modifiedTuples := 0
        outputTable := w.outputTable
        m_tuplesModified := w.m_tuplesModified
        calls := [] } := by
    simp [initialState, ht0, Table.asPersistent]
  have hskip : ∀ x ∈ rows, passesLocalityFilter c ex x = false :=
    fun x hx => (passesLocalityFilter_eq_false c ex x).2 ⟨hpart, hall x hx⟩
  refine ⟨?_, ?_, ?_⟩
  · intro hm hacc
    rw [p_execute_eq_of_loop b c ex rows w t0 ht0 hin hne,
      upsertLoop_all_skipped b c ex hm rows hskip, hinit]
    simp only [hacc, Bool.true_eq_false, if_false]
  · intro hm x rest hx
    have hstop : loopBody b c ex x (initialState w) =
        .stop (.constraintFailure
          (initialState w : ExecState Tbl Tuple Idx).targetTable x) (initialState w) := by
      rw [loopBody_of_not_passes b c ex x _
        (hskip x (by rw [hx]; exact List.mem_cons_self _ _)), if_pos hm]
    have hrows : rows = [] ++ x :: rest := by
      rw [hx]
      rfl
    rw [hrows, p_execute_stop_at b c ex [] rest x w t0 _ _ _ ht0 hin
      (upsertLoop_nil b c ex _) hstop, hinit]
  · intro hm r s hr
    rw [loopBody_of_not_passes b c ex r s ((passesLocalityFilter_eq_false c ex r).2
      ⟨hpart, hr⟩), if_pos hm]

/-- C19 witness: the example table without its primary-key index, assertions enabled,
multi-partition scope, batch `[(2, b), (4, d)]` of non-local rows: `p_execute` returns
true with count 0. -/
theorem C19_locality_filter_precedes_index_check_witness :
    (∀ x ∈ [(⟨2, "b"⟩ : Row), ⟨4, "d"⟩],
        (withoutPrimaryKey exampleStorage).isLocalSite
          ((withoutPrimaryKey exampleStorage).getNValue x exMulti.m_partitionColumn) =
          false) ∧
      p_execute assertBuild (withoutPrimaryKey exampleStorage) exMulti
          [⟨2, "b"⟩, ⟨4, "d"⟩] emptyWorld =
        (.returned true,
          { targetTable := some []
            modifiedTuples := 0
            outputTable := emptyWorld.outputTable ++ [0]
            m_tuplesModified := wrapInt64 (emptyWorld.m_tuplesModified + 0)
            calls := [] }) :=
  ⟨by decide,
    (C19_locality_filter_precedes_index_check assertBuild
      (withoutPrimaryKey exampleStorage) exMulti [⟨2, "b"⟩, ⟨4, "d"⟩] emptyWorld [] rfl rfl
      (by decide) (by decide) (Or.inl (by decide))).1 rfl rfl⟩

/-- C19 counterexample: the example table partitioned on `id`, multi-partition scope, and
the batch with no row (all of its rows are non-local).  With assertions enabled
`p_execute` fails the assertion of line 89, and with `DEBUG` it returns false at line 86,
with or without a primary-key index; it does not succeed with count 0. -/
theorem C19_counterexample :
    exMulti.m_partitionColumn ≠ -1 ∧ exMulti.m_multiPartition = true ∧
      p_execute assertBuild (withoutPrimaryKey exampleStorage) exMulti [] emptyWorld =
        (.assertFailed, ⟨some [], 0, [], 0, []⟩) ∧
      p_execute debugBuild exampleStorage exMulti [] emptyWorld =
        (.returned false, ⟨some [], 0, [], 0, []⟩) := by
  decide

end Upsert
